import Mathlib

/-!
The task model of todo-cli-go (`internal/models/task.go`).

A shallow embedding of the task entity, its status lifecycle and the
`TaskList` aggregate, of the filter engine (`pkg/filter/filter.go`) and of the
sort engine (`pkg/sort/sort.go`), followed by the properties proved about them.

Modelling conventions.

* `time.Time` is an instant: the (signed) number of nanoseconds since the Go
  zero time, January 1 of year 1, 00:00:00 UTC.  `IsZero`, `After` and `Before`
  compare instants only, so locations and monotonic readings are left out.
* `time.Now()` is an input.  Every call of `time.Now()` in a method body is a
  separate parameter of the embedded method, in the order the calls are made.
  An "evaluation time `now`" is the situation where all of them read `now`.
* `Priority` and `Status` are named `int` types in the source; they are
  integers here, with the three declared constants.
* Methods with a pointer receiver that write to the receiver return the new
  receiver (state passing).  A `TaskList` holds its tasks by value, in slice
  order; the list elements are assumed non-nil and pairwise distinct pointers.
-/

namespace TodoCli

/-- Go `time.Time`, reduced to the instant it denotes (nanoseconds since the
zero time). -/
structure Time where
  ns : Int
deriving DecidableEq, Repr

/-- The zero value `time.Time{}`. -/
def Time.zero : Time := ⟨0⟩

/-- Go `Time.IsZero`: the instant is the zero time. -/
def Time.IsZero (t : Time) : Bool := decide (t.ns = 0)

/-- Go `t.After(u)`: `t` is strictly after `u`. -/
def Time.After (t u : Time) : Bool := decide (u.ns < t.ns)

/-- Go `t.Before(u)`: `t` is strictly before `u`. -/
def Time.Before (t u : Time) : Bool := decide (t.ns < u.ns)

/-- Go `type Priority int`. -/
abbrev Priority := Int

/-- Constant `PriorityLow` (iota 0). -/
abbrev PriorityLow : Priority := 0
/-- Constant `PriorityMedium` (iota 1). -/
abbrev PriorityMedium : Priority := 1
/-- Constant `PriorityHigh` (iota 2). -/
abbrev PriorityHigh : Priority := 2

/-- Go `type Status int`. -/
abbrev Status := Int

/-- Constant `StatusPending` (iota 0). -/
abbrev StatusPending : Status := 0
/-- Constant `StatusCompleted` (iota 1). -/
abbrev StatusCompleted : Status := 1
/-- Constant `StatusOverdue` (iota 2). -/
abbrev StatusOverdue : Status := 2

/-- Go `type Task struct`. -/
structure Task where
  ID : String
  Title : String
  Description : String
  Priority : Priority
  Status : Status
  Tags : List String
  Project : String
  DueDate : Time
  CreatedAt : Time
  UpdatedAt : Time
  CompletedAt : Time
deriving DecidableEq, Repr

/-- Method `(*Task).IsOverdue`; `now` is the reading of `time.Now()`. -/
def Task.IsOverdue (t : Task) (now : Time) : Bool :=
  if t.Status = StatusCompleted then
    false
  else
    !t.DueDate.IsZero && now.After t.DueDate

/-- Method `(*Task).UpdateStatus`; `now` is the reading of `time.Now()` made by
`IsOverdue`. -/
def Task.UpdateStatus (t : Task) (now : Time) : Task :=
  if t.Status ≠ StatusCompleted && t.IsOverdue now then
    { t with Status := StatusOverdue }
  else
    t

/-- Method `(*Task).MarkComplete`; `now₁` is the clock reading stored in
`CompletedAt`, `now₂` the one stored in `UpdatedAt`. -/
def Task.MarkComplete (t : Task) (now₁ now₂ : Time) : Task :=
  { t with Status := StatusCompleted, CompletedAt := now₁, UpdatedAt := now₂ }

/-- Method `(*Task).MarkIncomplete`; `now₁` is the clock reading stored in
`UpdatedAt`, `now₂` the one made by the final `UpdateStatus`. -/
def Task.MarkIncomplete (t : Task) (now₁ now₂ : Time) : Task :=
  Task.UpdateStatus
    { t with Status := StatusPending, CompletedAt := Time.zero, UpdatedAt := now₁ } now₂

/-- Go `type TaskList struct`. -/
structure TaskList where
  Tasks : List Task
deriving DecidableEq, Repr

/-- Method `(*TaskList).Add`: `append(tl.Tasks, task)`. -/
def TaskList.Add (tl : TaskList) (task : Task) : TaskList :=
  { Tasks := tl.Tasks ++ [task] }

/-- The `for i, task := range tl.Tasks` loop of `Remove`, started at index `i`:
the index at which the loop body takes its `if task.ID == id` branch, if any. -/
def TaskList.Remove.scan (id : String) : List Task → Nat → Option Nat
  | [], _ => none
  | task :: rest, i => if task.ID = id then some i else TaskList.Remove.scan id rest (i + 1)

/-- Method `(*TaskList).Remove`: the new list and the returned flag.  At the
matching index `i` the list becomes `append(tl.Tasks[:i], tl.Tasks[i+1:]...)`. -/
def TaskList.Remove (tl : TaskList) (id : String) : TaskList × Bool :=
  match TaskList.Remove.scan id tl.Tasks 0 with
  | some i => ({ Tasks := tl.Tasks.take i ++ tl.Tasks.drop (i + 1) }, true)
  | none => (tl, false)

/-- The `for _, task := range tl.Tasks` loop of `GetByID`: `none` is `nil`. -/
def TaskList.GetByID.scan (id : String) : List Task → Option Task
  | [] => none
  | task :: rest => if task.ID = id then some task else TaskList.GetByID.scan id rest

/-- Method `(*TaskList).GetByID`: the list after the call (the method has no
assignment) and the returned task, `none` for `nil`. -/
def TaskList.GetByID (tl : TaskList) (id : String) : TaskList × Option Task :=
  (tl, TaskList.GetByID.scan id tl.Tasks)

/-- The loop of `UpdateAllStatuses` over the tasks; `clock k` is the reading of
`time.Now()` available to the `k`-th iteration. -/
def TaskList.UpdateAllStatuses.loop : List Task → (Nat → Time) → List Task
  | [], _ => []
  | task :: rest, clock =>
    task.UpdateStatus (clock 0) :: TaskList.UpdateAllStatuses.loop rest (fun k => clock (k + 1))

/-- Method `(*TaskList).UpdateAllStatuses`. -/
def TaskList.UpdateAllStatuses (tl : TaskList) (clock : Nat → Time) : TaskList :=
  { Tasks := TaskList.UpdateAllStatuses.loop tl.Tasks clock }

/-- The identifiers of a list, in list order. -/
def TaskList.ids (tl : TaskList) : List String := tl.Tasks.map Task.ID

/-- A sample task: pending, due at instant 100, last updated at instant 5. -/
def sampleTask : Task :=
  { ID := "t1", Title := "Buy milk", Description := "", Priority := PriorityLow,
    Status := StatusPending, Tags := ["home"], Project := "", DueDate := ⟨100⟩,
    CreatedAt := ⟨1⟩, UpdatedAt := ⟨5⟩, CompletedAt := Time.zero }

/-- A sample task: completed at instant 60, due at instant 50. -/
def sampleDone : Task :=
  { ID := "t2", Title := "Pay rent", Description := "", Priority := PriorityHigh,
    Status := StatusCompleted, Tags := [], Project := "", DueDate := ⟨50⟩,
    CreatedAt := ⟨2⟩, UpdatedAt := ⟨60⟩, CompletedAt := ⟨60⟩ }

/-- A sample task: pending, without a due date. -/
def sampleNoDue : Task :=
  { ID := "t3", Title := "Call bank", Description := "", Priority := PriorityMedium,
    Status := StatusPending, Tags := [], Project := "", DueDate := Time.zero,
    CreatedAt := ⟨3⟩, UpdatedAt := ⟨3⟩, CompletedAt := Time.zero }

/-- A sample list with pairwise distinct identifiers. -/
def sampleList : TaskList := { Tasks := [sampleTask, sampleDone, sampleNoDue] }

/-- A sample list in which the identifier `"t1"` occurs twice. -/
def sampleDupList : TaskList :=
  { Tasks := [sampleNoDue, sampleTask, sampleDone, { sampleDone with ID := "t1" }] }

/-! ## Priority: string form and parser -/

/-- Method `Priority.String`. -/
def Priority.String (p : Priority) : String :=
  if p = PriorityLow then "low"
  else if p = PriorityMedium then "medium"
  else if p = PriorityHigh then "high"
  else "unknown"

/-- Function `ParsePriority`. -/
def ParsePriority (s : String) : Priority :=
  if s = "low" then PriorityLow
  else if s = "medium" then PriorityMedium
  else if s = "high" then PriorityHigh
  else PriorityLow

/-! ## Go's `strings` package, as used by the filter

Strings are sequences of runes (valid UTF-8).  The ASCII behaviour of the case
functions is spelled out as in the Go library; what the library looks up in the
Unicode tables for runes above ASCII is a parameter. -/

/-- The Unicode case tables behind Go's `unicode.ToLower` and
`unicode.SimpleFold`, for runes outside ASCII. -/
structure UnicodeTables where
  /-- The lower case of a rune above `unicode.MaxASCII`. -/
  ToLower : Char → Char
  /-- For runes `sr < tr` with `tr` outside ASCII: iterating `unicode.SimpleFold`
  from `sr` reaches `tr`. -/
  SimpleFoldReaches : Char → Char → Bool

/-- Tables without any case pair outside ASCII. -/
def UnicodeTables.asciiOnly : UnicodeTables :=
  { ToLower := fun r => r, SimpleFoldReaches := fun _ _ => false }

/-- Go `unicode.ToLower`. -/
def unicode.ToLower (u : UnicodeTables) (r : Char) : Char :=
  if r.toNat ≤ 127 then
    if 'A'.toNat ≤ r.toNat ∧ r.toNat ≤ 'Z'.toNat then Char.ofNat (r.toNat + 32) else r
  else
    u.ToLower r

/-- Go `strings.ToLower`: every rune mapped by `unicode.ToLower`. -/
def strings.ToLower (u : UnicodeTables) (s : String) : String :=
  String.mk (s.data.map (unicode.ToLower u))

/-- The test `strings.EqualFold` makes on one pair of runes. -/
def strings.EqualFold.rune (u : UnicodeTables) (sr tr : Char) : Bool :=
  if tr = sr then
    true
  else
    let lo := if tr.toNat < sr.toNat then tr else sr
    let hi := if tr.toNat < sr.toNat then sr else tr
    if hi.toNat < 128 then
      decide ('A'.toNat ≤ lo.toNat ∧ lo.toNat ≤ 'Z'.toNat ∧ hi.toNat = lo.toNat + 32)
    else
      u.SimpleFoldReaches lo hi

/-- The rune-by-rune loop of `strings.EqualFold`. -/
def strings.EqualFold.loop (u : UnicodeTables) : List Char → List Char → Bool
  | [], t => t.isEmpty
  | _ :: _, [] => false
  | sr :: s, tr :: t =>
    if strings.EqualFold.rune u sr tr then strings.EqualFold.loop u s t else false

/-- Go `strings.EqualFold`: equality under simple Unicode case folding. -/
def strings.EqualFold (u : UnicodeTables) (s t : String) : Bool :=
  strings.EqualFold.loop u s.data t.data

/-- The search of `strings.Contains`: `substr` starts at some position of the
remaining text. -/
def strings.Contains.search (substr : List Char) : List Char → Bool
  | [] => substr.isEmpty
  | c :: rest =>
    if substr.isPrefixOf (c :: rest) then true else strings.Contains.search substr rest

/-- Go `strings.Contains`. -/
def strings.Contains (s substr : String) : Bool :=
  strings.Contains.search substr.data s.data

/-! ## The filter engine (`pkg/filter/filter.go`) -/

/-- Go `type Filter struct`; a nil `*models.Status` or `*models.Priority` is
`none`. -/
structure Filter where
  Status : Option Status
  Priority : Option Priority
  Project : String
  Tags : List String
  Keyword : String
  DateFrom : Time
  DateTo : Time
deriving DecidableEq, Repr

/-- The inner loop of the tag test: `for _, taskTag := range task.Tags`. -/
def Filter.matches.taskTagLoop (u : UnicodeTables) (filterTag : String) : List String → Bool
  | [] => false
  | taskTag :: rest =>
    if strings.EqualFold u taskTag filterTag then true
    else Filter.matches.taskTagLoop u filterTag rest

/-- The outer loop of the tag test: `for _, filterTag := range f.Tags`; the
result is the final value of `hasTag`. -/
def Filter.matches.filterTagLoop (u : UnicodeTables) (taskTags : List String) :
    List String → Bool
  | [] => false
  | filterTag :: rest =>
    if Filter.matches.taskTagLoop u filterTag taskTags then true
    else Filter.matches.filterTagLoop u taskTags rest

/-- Method `(*Filter).matches`. -/
def Filter.matches (u : UnicodeTables) (f : Filter) (task : Task) : Bool :=
  if (match f.Status with
      | some status => decide (task.Status ≠ status)
      | none => false) then
    false
  else if (match f.Priority with
      | some priority => decide (task.Priority ≠ priority)
      | none => false) then
    false
  else if f.Project ≠ "" && !strings.EqualFold u task.Project f.Project then
    false
  else if decide (f.Tags.length > 0) && !Filter.matches.filterTagLoop u task.Tags f.Tags then
    false
  else if f.Keyword ≠ "" &&
      (!strings.Contains (strings.ToLower u task.Title) (strings.ToLower u f.Keyword) &&
        !strings.Contains (strings.ToLower u task.Description)
          (strings.ToLower u f.Keyword)) then
    false
  else if !f.DateFrom.IsZero && task.DueDate.Before f.DateFrom then
    false
  else if !f.DateTo.IsZero && task.DueDate.After f.DateTo then
    false
  else
    true

/-- The loop of `Apply`: `filtered` is the slice built so far. -/
def Filter.Apply.loop (u : UnicodeTables) (f : Filter) : List Task → List Task → List Task
  | [], filtered => filtered
  | task :: rest, filtered =>
    if f.matches u task then Filter.Apply.loop u f rest (filtered ++ [task])
    else Filter.Apply.loop u f rest filtered

/-- Method `(*Filter).Apply`. -/
def Filter.Apply (u : UnicodeTables) (f : Filter) (tasks : List Task) : List Task :=
  Filter.Apply.loop u f tasks []

/-- The filter with no criterion configured (the zero value `Filter{}`). -/
def Filter.empty : Filter :=
  { Status := none, Priority := none, Project := "", Tags := [], Keyword := "",
    DateFrom := Time.zero, DateTo := Time.zero }

/-- Function `NewTagFilter`. -/
def NewTagFilter (tags : List String) : Filter :=
  { Filter.empty with Tags := tags }

/-- Function `NewKeywordFilter`. -/
def NewKeywordFilter (keyword : String) : Filter :=
  { Filter.empty with Keyword := keyword }

/-- In the words of the specification: the task passes every configured
criterion of the filter. -/
def Filter.passesAll (u : UnicodeTables) (f : Filter) (task : Task) : Prop :=
  (∀ status, f.Status = some status → task.Status = status) ∧
  (∀ priority, f.Priority = some priority → task.Priority = priority) ∧
  (f.Project ≠ "" → strings.EqualFold u task.Project f.Project = true) ∧
  (f.Tags ≠ [] →
    ∃ filterTag ∈ f.Tags, ∃ taskTag ∈ task.Tags,
      strings.EqualFold u taskTag filterTag = true) ∧
  (f.Keyword ≠ "" →
    strings.Contains (strings.ToLower u task.Title) (strings.ToLower u f.Keyword) = true ∨
      strings.Contains (strings.ToLower u task.Description)
        (strings.ToLower u f.Keyword) = true) ∧
  (f.DateFrom ≠ Time.zero → ¬ task.DueDate.ns < f.DateFrom.ns) ∧
  (f.DateTo ≠ Time.zero → ¬ f.DateTo.ns < task.DueDate.ns)

/-- The instant of a Unix time in seconds: the zero time is 62135596800 seconds
before the Unix epoch. -/
def Time.unix (sec : Int) : Time := ⟨(62135596800 + sec) * 1000000000⟩

/-- The example task A: "Buy milk", priority Low, due 2024-01-10 (UTC). -/
def taskA : Task :=
  { ID := "A", Title := "Buy milk", Description := "", Priority := PriorityLow,
    Status := StatusPending, Tags := [], Project := "", DueDate := Time.unix 1704844800,
    CreatedAt := Time.unix 1704067200, UpdatedAt := Time.unix 1704067200,
    CompletedAt := Time.zero }

/-- The example task B: "Pay rent", priority High, no due date. -/
def taskB : Task :=
  { ID := "B", Title := "Pay rent", Description := "", Priority := PriorityHigh,
    Status := StatusPending, Tags := [], Project := "", DueDate := Time.zero,
    CreatedAt := Time.unix 1704067200, UpdatedAt := Time.unix 1704067200,
    CompletedAt := Time.zero }

/-- The example task C: "Call bank", priority Medium, due 2024-01-05 (UTC). -/
def taskC : Task :=
  { ID := "C", Title := "Call bank", Description := "", Priority := PriorityMedium,
    Status := StatusPending, Tags := [], Project := "", DueDate := Time.unix 1704412800,
    CreatedAt := Time.unix 1704067200, UpdatedAt := Time.unix 1704067200,
    CompletedAt := Time.zero }

/-- The filter with only the date range configured. -/
def Filter.dateRange (dateFrom dateTo : Time) : Filter :=
  { Filter.empty with DateFrom := dateFrom, DateTo := dateTo }

/-- The instant 0000-06-01 00:00 UTC, 214 days before the zero time. -/
def Time.juneOfYearZero : Time := Time.unix (-62154086400)

/-! ## The sort engine (`pkg/sort/sort.go`)

The engine calls `sort.Slice` of the Go standard library with a comparison
closure.  `sort.Slice` is a parameter here, known by what its documentation
promises: it reorders the slice, the result is sorted for the comparison, and
"the sort is not guaranteed to be stable".  The closures index the slice being
sorted, so they compare two of its tasks. -/

/-- Go `sort.Slice(x, less)` as a function from the slice and the comparison to
the slice after the call. -/
abbrev sort.SliceFunc := List Task → (Task → Task → Bool) → List Task

/-- The requirement `sort.Slice` puts on `less`: irreflexive, transitive, and
with a transitive "neither is less" relation. -/
def sort.StrictWeakOrdering (less : Task → Task → Bool) : Prop :=
  (∀ a, less a a = false) ∧
  (∀ a b c, less a b = true → less b c = true → less a c = true) ∧
  (∀ a b c, less a b = false → less b c = false → less a c = false)

/-- What the documentation of `sort.Slice` promises of an implementation: the
result is a rearrangement of the slice, and for a comparison meeting the
requirement no element is less than an element placed before it. -/
def sort.SliceContract (slice : sort.SliceFunc) : Prop :=
  (∀ x less, (slice x less).Perm x) ∧
  (∀ x less, sort.StrictWeakOrdering less →
    (slice x less).Pairwise (fun a b => less b a = false))

/-- An implementation of `sort.Slice` by insertion sort. -/
def sort.insertionSlice : sort.SliceFunc :=
  fun x less => x.insertionSort (fun a b => less b a = false)

/-- A sorting function that keeps the promises of `sort.Slice` without being
stable: when the last element is less than the first it reverses the slice
before the insertion sort.  It is not the algorithm of the Go library, which
`sort.pdqsortSlice` follows. -/
def sort.adaptiveSlice : sort.SliceFunc :=
  fun x less =>
    match x.head?, x.getLast? with
    | some first, some last =>
      if less last first then sort.insertionSlice x.reverse less
      else sort.insertionSlice x less
    | _, _ => x

/-- Go `type SortBy int`. -/
abbrev sortpkg.SortBy := Int

/-- Constant `SortByPriority` (iota 0). -/
abbrev sortpkg.SortByPriority : sortpkg.SortBy := 0
/-- Constant `SortByDueDate` (iota 1). -/
abbrev sortpkg.SortByDueDate : sortpkg.SortBy := 1
/-- Constant `SortByCreatedAt` (iota 2). -/
abbrev sortpkg.SortByCreatedAt : sortpkg.SortBy := 2
/-- Constant `SortByTitle` (iota 3). -/
abbrev sortpkg.SortByTitle : sortpkg.SortBy := 3

/-- The comparison closure of `sortByPriority`. -/
def sortpkg.sortByPriority.less (ascending : Bool) (ti tj : Task) : Bool :=
  if ascending then decide (ti.Priority < tj.Priority)
  else decide (ti.Priority > tj.Priority)

/-- Function `sortByPriority`. -/
def sortpkg.sortByPriority (slice : sort.SliceFunc) (tasks : List Task) (ascending : Bool) :
    List Task :=
  slice tasks (sortpkg.sortByPriority.less ascending)

/-- The comparison closure of `sortByDueDate`. -/
def sortpkg.sortByDueDate.less (ascending : Bool) (ti tj : Task) : Bool :=
  if ti.DueDate.IsZero && tj.DueDate.IsZero then false
  else if ti.DueDate.IsZero then false
  else if tj.DueDate.IsZero then true
  else if ascending then ti.DueDate.Before tj.DueDate
  else ti.DueDate.After tj.DueDate

/-- Function `sortByDueDate`. -/
def sortpkg.sortByDueDate (slice : sort.SliceFunc) (tasks : List Task) (ascending : Bool) :
    List Task :=
  slice tasks (sortpkg.sortByDueDate.less ascending)

/-- The comparison closure of `sortByCreatedAt`. -/
def sortpkg.sortByCreatedAt.less (ascending : Bool) (ti tj : Task) : Bool :=
  if ascending then ti.CreatedAt.Before tj.CreatedAt
  else ti.CreatedAt.After tj.CreatedAt

/-- Function `sortByCreatedAt`. -/
def sortpkg.sortByCreatedAt (slice : sort.SliceFunc) (tasks : List Task) (ascending : Bool) :
    List Task :=
  slice tasks (sortpkg.sortByCreatedAt.less ascending)

/-- The comparison closure of `sortByTitle`; Go compares strings byte by byte,
which for valid UTF-8 is the order of the rune sequences. -/
def sortpkg.sortByTitle.less (ascending : Bool) (ti tj : Task) : Bool :=
  if ascending then decide (ti.Title < tj.Title)
  else decide (ti.Title > tj.Title)

/-- Function `sortByTitle`. -/
def sortpkg.sortByTitle (slice : sort.SliceFunc) (tasks : List Task) (ascending : Bool) :
    List Task :=
  slice tasks (sortpkg.sortByTitle.less ascending)

/-- Function `Sort`: the slice after the call.  A `switch` without a default
leaves the slice alone for any other key. -/
def sortpkg.Sort (slice : sort.SliceFunc) (tasks : List Task) (sortBy : sortpkg.SortBy)
    (ascending : Bool) : List Task :=
  if sortBy = sortpkg.SortByPriority then sortpkg.sortByPriority slice tasks ascending
  else if sortBy = sortpkg.SortByDueDate then sortpkg.sortByDueDate slice tasks ascending
  else if sortBy = sortpkg.SortByCreatedAt then sortpkg.sortByCreatedAt slice tasks ascending
  else if sortBy = sortpkg.SortByTitle then sortpkg.sortByTitle slice tasks ascending
  else tasks

/-- A pending task with the given identifier and priority, created the given
number of hours after 2024-01-01 00:00 UTC. -/
def numberedTask (id : String) (priority : Priority) (hours : Int) : Task :=
  { ID := id, Title := id, Description := "", Priority := priority, Status := StatusPending,
    Tags := [], Project := "", DueDate := Time.zero,
    CreatedAt := Time.unix (1704067200 + 3600 * hours),
    UpdatedAt := Time.unix (1704067200 + 3600 * hours), CompletedAt := Time.zero }

/-- Thirteen tasks; `"y1"` and `"y2"`, in this order, have the same creation
time and are the only two that do. -/
def createdAtSample : List Task :=
  [numberedTask "e0" PriorityLow 5, numberedTask "y1" PriorityLow 20,
    numberedTask "y2" PriorityLow 20, numberedTask "e3" PriorityLow 6,
    numberedTask "e4" PriorityLow 7, numberedTask "e5" PriorityLow 8,
    numberedTask "e6" PriorityLow 9, numberedTask "e7" PriorityLow 10,
    numberedTask "e8" PriorityLow 11, numberedTask "e9" PriorityLow 12,
    numberedTask "e10" PriorityLow 13, numberedTask "e11" PriorityLow 1,
    numberedTask "e12" PriorityLow 2]

/-- Thirteen tasks: one of priority Low, eleven of priority Medium (`"m1"` to
`"m11"`, in this order), one of priority High; they are in ascending order of
priority. -/
def prioritySample : List Task :=
  [numberedTask "lo" PriorityLow 0, numberedTask "m1" PriorityMedium 1,
    numberedTask "m2" PriorityMedium 2, numberedTask "m3" PriorityMedium 3,
    numberedTask "m4" PriorityMedium 4, numberedTask "m5" PriorityMedium 5,
    numberedTask "m6" PriorityMedium 6, numberedTask "m7" PriorityMedium 7,
    numberedTask "m8" PriorityMedium 8, numberedTask "m9" PriorityMedium 9,
    numberedTask "m10" PriorityMedium 10, numberedTask "m11" PriorityMedium 11,
    numberedTask "hi" PriorityHigh 12]

/-! ## The first round of Go's `sort.Slice`

From Go 1.19 on, `sort.Slice` runs the pattern-defeating quicksort
`pdqsort_func` of the `sort` package.  The functions below follow it as it runs
on a slice of at most 13 elements: an insertion sort up to 12 elements, and for
13 elements one round (pivot by median of three, check for a sorted slice,
partition) followed by the insertion sort of the two sides.  The slice is a
list, `a` and `b` bound the range `data[a:b]`, `less` compares two elements. -/

/-- Go `data.Less(i, j)` on the slice `data`. -/
def sort.lessAt (less : Task → Task → Bool) (data : List Task) (i j : Nat) : Bool :=
  match data[i]?, data[j]? with
  | some x, some y => less x y
  | _, _ => false

/-- Go `data.Swap(i, j)` on the slice `data`. -/
def sort.swapAt (data : List Task) (i j : Nat) : List Task :=
  match data[i]?, data[j]? with
  | some x, some y => (data.set i y).set j x
  | _, _ => data

/-- The inner loop of `insertionSort_func`:
`for j := i; j > a && data.Less(j, j-1); j-- { data.Swap(j, j-1) }`. -/
def sort.insertionSort_func.inner (less : Task → Task → Bool) (a : Nat) :
    Nat → List Task → List Task
  | 0, data => data
  | j + 1, data =>
    if decide (j + 1 > a) && sort.lessAt less data (j + 1) j then
      sort.insertionSort_func.inner less a j (sort.swapAt data (j + 1) j)
    else data

/-- The outer loop of `insertionSort_func`: `for i := a + 1; i < b; i++`; the
first argument bounds the number of iterations. -/
def sort.insertionSort_func.outer (less : Task → Task → Bool) (a b : Nat) :
    Nat → Nat → List Task → List Task
  | 0, _, data => data
  | fuel + 1, i, data =>
    if i < b then
      sort.insertionSort_func.outer less a b fuel (i + 1)
        (sort.insertionSort_func.inner less a i data)
    else data

/-- Go `insertionSort_func(data, a, b)`. -/
def sort.insertionSort_func (less : Task → Task → Bool) (data : List Task) (a b : Nat) :
    List Task :=
  sort.insertionSort_func.outer less a b (b - a) (a + 1) data

/-- Go `order2_func(data, a, b, swaps)`: the two indices in order and the new
count of swaps. -/
def sort.order2_func (less : Task → Task → Bool) (data : List Task) (a b swaps : Nat) :
    Nat × Nat × Nat :=
  if sort.lessAt less data b a then (b, a, swaps + 1) else (a, b, swaps)

/-- Go `median_func(data, a, b, c, swaps)`: the index of the median and the new
count of swaps. -/
def sort.median_func (less : Task → Task → Bool) (data : List Task) (a b c swaps : Nat) :
    Nat × Nat :=
  let r1 := sort.order2_func less data a b swaps
  let r2 := sort.order2_func less data r1.2.1 c r1.2.2
  let r3 := sort.order2_func less data r1.1 r2.1 r2.2.2
  (r3.2.1, r3.2.2)

/-- Go `type sortedHint`. -/
inductive sort.sortedHint where
  | unknownHint
  | increasingHint
  | decreasingHint
deriving DecidableEq, Repr

/-- Go `choosePivot_func(data, a, b)` on fewer than 50 elements (no ninther):
the pivot index and the hint. -/
def sort.choosePivot_func (less : Task → Task → Bool) (data : List Task) (a b : Nat) :
    Nat × sort.sortedHint :=
  let l := b - a
  let i := a + l / 4 * 1
  let j := a + l / 4 * 2
  let k := a + l / 4 * 3
  let r := if l ≥ 8 then sort.median_func less data i j k 0 else (j, 0)
  if r.2 = 0 then (r.1, sort.sortedHint.increasingHint)
  else if r.2 = 4 * 3 then (r.1, sort.sortedHint.decreasingHint)
  else (r.1, sort.sortedHint.unknownHint)

/-- The scan of `partialInsertionSort_func`:
`for i < b && !data.Less(i, i-1) { i++ }`. -/
def sort.partialInsertionSort_func.scan (less : Task → Task → Bool) (data : List Task)
    (b : Nat) : Nat → Nat → Nat
  | 0, i => i
  | fuel + 1, i =>
    if decide (i < b) && !sort.lessAt less data i (i - 1) then
      sort.partialInsertionSort_func.scan less data b fuel (i + 1)
    else i

/-- Go `partialInsertionSort_func(data, a, b)` on fewer than 50 elements, where
it shifts nothing: whether the range is already sorted. -/
def sort.partialInsertionSort_func (less : Task → Task → Bool) (data : List Task)
    (a b : Nat) : Bool :=
  decide (sort.partialInsertionSort_func.scan less data b (b - a) (a + 1) = b)

/-- The loop `for i <= j && data.Less(i, a) { i++ }` of `partition_func`. -/
def sort.partition_func.up (less : Task → Task → Bool) (data : List Task) (a j : Nat) :
    Nat → Nat → Nat
  | 0, i => i
  | fuel + 1, i =>
    if decide (i ≤ j) && sort.lessAt less data i a then
      sort.partition_func.up less data a j fuel (i + 1)
    else i

/-- The loop `for i <= j && !data.Less(j, a) { j-- }` of `partition_func`. -/
def sort.partition_func.down (less : Task → Task → Bool) (data : List Task) (a i : Nat) :
    Nat → Nat
  | 0 => 0
  | j + 1 =>
    if decide (i ≤ j + 1) && !sort.lessAt less data (j + 1) a then
      sort.partition_func.down less data a i j
    else j + 1

/-- The closing `for` loop of `partition_func`: the slice and `j` at the
`break`. -/
def sort.partition_func.loop (less : Task → Task → Bool) (a : Nat) :
    Nat → List Task → Nat → Nat → List Task × Nat
  | 0, data, _, j => (data, j)
  | fuel + 1, data, i, j =>
    let i1 := sort.partition_func.up less data a j (j + 1 - i) i
    let j1 := sort.partition_func.down less data a i1 j
    if i1 > j1 then (data, j1)
    else sort.partition_func.loop less a fuel (sort.swapAt data i1 j1) (i1 + 1) (j1 - 1)

/-- Go `partition_func(data, a, b, pivot)`: the slice, the new pivot index and
`alreadyPartitioned`. -/
def sort.partition_func (less : Task → Task → Bool) (data : List Task) (a b pivot : Nat) :
    List Task × Nat × Bool :=
  let data0 := sort.swapAt data a pivot
  let i := sort.partition_func.up less data0 a (b - 1) (b - a) (a + 1)
  let j := sort.partition_func.down less data0 a i (b - 1)
  if i > j then
    (sort.swapAt data0 j a, j, true)
  else
    let r := sort.partition_func.loop less a (b - a) (sort.swapAt data0 i j) (i + 1) (j - 1)
    (sort.swapAt r.1 r.2 a, r.2, false)

/-- Go `pdqsort_func(data, 0, 13, limit)` on a slice of 13 elements: the first
pass through its loop, and the insertion sorts that its recursive call and its
second pass come to on the two sides, which have at most 12 elements. -/
def sort.pdqsort_func.round (less : Task → Task → Bool) (data : List Task) : List Task :=
  let a := 0
  let b := data.length
  let p := sort.choosePivot_func less data a b
  if decide (p.2 = sort.sortedHint.increasingHint) &&
      sort.partialInsertionSort_func less data a b then
    data
  else
    let r := sort.partition_func less data a b p.1
    let mid := r.2.1
    if mid - a < b - mid then
      sort.insertionSort_func less (sort.insertionSort_func less r.1 a mid) (mid + 1) b
    else
      sort.insertionSort_func less (sort.insertionSort_func less r.1 (mid + 1) b) a mid

/-- Go `sort.Slice` (Go 1.19 and later) on slices of at most 13 elements.  What
the library does on a longer slice is the parameter `longer`. -/
def sort.pdqsortSlice (longer : sort.SliceFunc) : sort.SliceFunc :=
  fun x less =>
    if x.length ≤ 12 then sort.insertionSort_func less x 0 x.length
    else if x.length = 13 then sort.pdqsort_func.round less x
    else longer x less

/-! ## Task: status lifecycle -/

theorem Task.IsOverdue_eq_true_iff (t : Task) (now : Time) :
    t.IsOverdue now = true ↔
      t.Status ≠ StatusCompleted ∧ t.DueDate ≠ Time.zero ∧ t.DueDate.ns < now.ns := by
  obtain ⟨_, _, _, _, st, _, _, ⟨due⟩, _, _, _⟩ := t
  by_cases h : st = StatusCompleted <;>
    simp [Task.IsOverdue, Time.After, Time.IsZero, Time.zero, h]

theorem Task.UpdateStatus_of_overdue (t : Task) (now : Time) (h : t.IsOverdue now = true) :
    t.UpdateStatus now = { t with Status := StatusOverdue } := by
  have hs : t.Status ≠ StatusCompleted := ((Task.IsOverdue_eq_true_iff t now).1 h).1
  simp [Task.UpdateStatus, h, hs]

theorem Task.UpdateStatus_of_not_overdue (t : Task) (now : Time) (h : t.IsOverdue now = false) :
    t.UpdateStatus now = t := by
  simp [Task.UpdateStatus, h]

theorem Task.UpdateStatus_of_completed (t : Task) (now : Time) (h : t.Status = StatusCompleted) :
    t.UpdateStatus now = t := by
  simp [Task.UpdateStatus, h]

/-- Whatever the clock reads, `UpdateStatus` writes no field but `Status`. -/
theorem Task.UpdateStatus_frame (t : Task) (now : Time) :
    t.UpdateStatus now = { t with Status := (t.UpdateStatus now).Status } := by
  cases hov : t.IsOverdue now
  · rw [Task.UpdateStatus_of_not_overdue t now hov]
  · rw [Task.UpdateStatus_of_overdue t now hov]

/-- Whatever the clock reads, `UpdateStatus` keeps a status or makes it
`StatusOverdue`. -/
theorem Task.UpdateStatus_status (t : Task) (now : Time) :
    (t.UpdateStatus now).Status = t.Status ∨ (t.UpdateStatus now).Status = StatusOverdue := by
  cases hov : t.IsOverdue now
  · rw [Task.UpdateStatus_of_not_overdue t now hov]; exact Or.inl rfl
  · rw [Task.UpdateStatus_of_overdue t now hov]; exact Or.inr rfl

/-- C1. `IsOverdue` is true exactly when the status is not Completed, the due
date is present (not the zero time) and the due date is strictly earlier than
`now`; it is false for a Completed task whatever the due date, and false when
the due date equals `now`. -/
theorem C1_IsOverdue_iff (t : Task) (now due : Time) :
    (t.IsOverdue now = true ↔
        t.Status ≠ StatusCompleted ∧ t.DueDate ≠ Time.zero ∧ t.DueDate.ns < now.ns) ∧
      Task.IsOverdue { t with Status := StatusCompleted, DueDate := due } now = false ∧
      Task.IsOverdue { t with DueDate := now } now = false := by
  refine ⟨Task.IsOverdue_eq_true_iff t now, ?_, ?_⟩
  · simp [Task.IsOverdue]
  · cases hov : Task.IsOverdue { t with DueDate := now } now
    · rfl
    · have h := ((Task.IsOverdue_eq_true_iff _ now).1 hov).2.2
      simp at h

/-- C2. For a task whose due date is present and strictly before the evaluation
time `now`, whatever its prior status, `MarkComplete` followed by
`MarkIncomplete` leaves the status Overdue, not Pending. -/
theorem C2_complete_incomplete_past_due (t : Task) (now : Time)
    (hpresent : t.DueDate ≠ Time.zero) (hpast : t.DueDate.ns < now.ns) :
    ((t.MarkComplete now now).MarkIncomplete now now).Status = StatusOverdue ∧
      ((t.MarkComplete now now).MarkIncomplete now now).Status ≠ StatusPending := by
  have hov : Task.IsOverdue
      { t.MarkComplete now now with
        Status := StatusPending, CompletedAt := Time.zero, UpdatedAt := now } now = true := by
    rw [Task.IsOverdue_eq_true_iff]
    exact ⟨(by decide : StatusPending ≠ StatusCompleted), hpresent, hpast⟩
  have hst : ((t.MarkComplete now now).MarkIncomplete now now).Status = StatusOverdue := by
    unfold Task.MarkIncomplete
    rw [Task.UpdateStatus_of_overdue _ _ hov]
  exact ⟨hst, by rw [hst]; decide⟩

theorem C2_complete_incomplete_past_due_witness :
    (sampleTask.DueDate ≠ Time.zero ∧ sampleTask.DueDate.ns < (⟨200⟩ : Time).ns) ∧
      ((sampleTask.MarkComplete ⟨200⟩ ⟨200⟩).MarkIncomplete ⟨200⟩ ⟨200⟩).Status = StatusOverdue ∧
      ((sampleTask.MarkComplete ⟨200⟩ ⟨200⟩).MarkIncomplete ⟨200⟩ ⟨200⟩).Status ≠ StatusPending :=
  ⟨by decide, C2_complete_incomplete_past_due sampleTask ⟨200⟩ (by decide) (by decide)⟩

/-- C3. For a task whose due date is strictly after the evaluation time `now`,
whatever its prior status (a stale Overdue included), `MarkComplete` followed by
`MarkIncomplete` leaves the status Pending and completed-at the zero time. -/
theorem C3_complete_incomplete_future_due (t : Task) (now : Time)
    (hfuture : now.ns < t.DueDate.ns) :
    ((t.MarkComplete now now).MarkIncomplete now now).Status = StatusPending ∧
      ((t.MarkComplete now now).MarkIncomplete now now).CompletedAt = Time.zero := by
  have hov : Task.IsOverdue
      { t.MarkComplete now now with
        Status := StatusPending, CompletedAt := Time.zero, UpdatedAt := now } now = false := by
    cases h : Task.IsOverdue
      { t.MarkComplete now now with
        Status := StatusPending, CompletedAt := Time.zero, UpdatedAt := now } now
    · rfl
    · have h3 := ((Task.IsOverdue_eq_true_iff _ now).1 h).2.2
      have h4 : t.DueDate.ns < now.ns := h3
      omega
  unfold Task.MarkIncomplete
  rw [Task.UpdateStatus_of_not_overdue _ _ hov]
  exact ⟨rfl, rfl⟩

theorem C3_complete_incomplete_future_due_witness :
    (⟨50⟩ : Time).ns < (Task.DueDate { sampleTask with Status := StatusOverdue }).ns ∧
      ((Task.MarkComplete { sampleTask with Status := StatusOverdue } ⟨50⟩ ⟨50⟩).MarkIncomplete
          ⟨50⟩ ⟨50⟩).Status = StatusPending ∧
      ((Task.MarkComplete { sampleTask with Status := StatusOverdue } ⟨50⟩ ⟨50⟩).MarkIncomplete
          ⟨50⟩ ⟨50⟩).CompletedAt = Time.zero :=
  ⟨by decide,
    C3_complete_incomplete_future_due { sampleTask with Status := StatusOverdue } ⟨50⟩
      (by decide)⟩

/-- C4. `UpdateStatus` is idempotent at a fixed evaluation time: applying it
twice gives exactly the task that applying it once gives. -/
theorem C4_UpdateStatus_idempotent (t : Task) (now : Time) :
    (t.UpdateStatus now).UpdateStatus now = t.UpdateStatus now := by
  cases hov : t.IsOverdue now
  · rw [Task.UpdateStatus_of_not_overdue t now hov, Task.UpdateStatus_of_not_overdue t now hov]
  · rw [Task.UpdateStatus_of_overdue t now hov]
    have h := (Task.IsOverdue_eq_true_iff t now).1 hov
    have hov2 : Task.IsOverdue { t with Status := StatusOverdue } now = true := by
      rw [Task.IsOverdue_eq_true_iff]
      exact ⟨(by decide : StatusOverdue ≠ StatusCompleted), h.2.1, h.2.2⟩
    rw [Task.UpdateStatus_of_overdue _ now hov2]

/-- C5. At evaluation time `now`, `MarkComplete` yields status Completed,
completed-at `now` and updated-at `now`, and leaves id, title, description,
priority, tags, project, due date and created-at as they were. -/
theorem C5_MarkComplete_effect (t : Task) (now : Time) :
    (t.MarkComplete now now).Status = StatusCompleted ∧
      (t.MarkComplete now now).CompletedAt = now ∧
      (t.MarkComplete now now).UpdatedAt = now ∧
      (t.MarkComplete now now).ID = t.ID ∧
      (t.MarkComplete now now).Title = t.Title ∧
      (t.MarkComplete now now).Description = t.Description ∧
      (t.MarkComplete now now).Priority = t.Priority ∧
      (t.MarkComplete now now).Tags = t.Tags ∧
      (t.MarkComplete now now).Project = t.Project ∧
      (t.MarkComplete now now).DueDate = t.DueDate ∧
      (t.MarkComplete now now).CreatedAt = t.CreatedAt :=
  ⟨rfl, rfl, rfl, rfl, rfl, rfl, rfl, rfl, rfl, rfl, rfl⟩

/-- C6, the claim refuted: `UpdateStatus` at instant 200 turns the pending
sample task (due at 100, updated-at 5) into Overdue, and updated-at stays 5. -/
theorem C6_UpdateStatus_keeps_UpdatedAt :
    sampleTask.Status = StatusPending ∧
      (sampleTask.UpdateStatus ⟨200⟩).Status = StatusOverdue ∧
      (sampleTask.UpdateStatus ⟨200⟩) ≠ sampleTask ∧
      (sampleTask.UpdateStatus ⟨200⟩).UpdatedAt = ⟨5⟩ ∧
      (sampleTask.UpdateStatus ⟨200⟩).UpdatedAt ≠ ⟨200⟩ := by
  decide

/-- C6, amended. At evaluation time `now`, `MarkComplete` and `MarkIncomplete`
set updated-at to `now`; `UpdateStatus` writes only the status field, which it
keeps or sets to Overdue: updated-at and every other field are left as they
were, also when it turns a Pending task into Overdue. -/
theorem C6_UpdatedAt_amended (t : Task) (now : Time) :
    (t.MarkComplete now now).UpdatedAt = now ∧
      (t.MarkIncomplete now now).UpdatedAt = now ∧
      (t.UpdateStatus now).UpdatedAt = t.UpdatedAt ∧
      (t.UpdateStatus now).ID = t.ID ∧
      (t.UpdateStatus now).Title = t.Title ∧
      (t.UpdateStatus now).Description = t.Description ∧
      (t.UpdateStatus now).Priority = t.Priority ∧
      (t.UpdateStatus now).Tags = t.Tags ∧
      (t.UpdateStatus now).Project = t.Project ∧
      (t.UpdateStatus now).DueDate = t.DueDate ∧
      (t.UpdateStatus now).CreatedAt = t.CreatedAt ∧
      (t.UpdateStatus now).CompletedAt = t.CompletedAt ∧
      t.UpdateStatus now = { t with Status := (t.UpdateStatus now).Status } ∧
      ((t.UpdateStatus now).Status = t.Status ∨
        (t.UpdateStatus now).Status = StatusOverdue) ∧
      (t.Status = StatusPending → t.DueDate ≠ Time.zero → t.DueDate.ns < now.ns →
        (t.UpdateStatus now).Status = StatusOverdue ∧
          (t.UpdateStatus now).UpdatedAt = t.UpdatedAt) := by
  have hf := Task.UpdateStatus_frame t now
  refine ⟨rfl, ?_, by rw [hf], by rw [hf], by rw [hf], by rw [hf], by rw [hf], by rw [hf],
    by rw [hf], by rw [hf], by rw [hf], by rw [hf], hf, Task.UpdateStatus_status t now, ?_⟩
  · unfold Task.MarkIncomplete
    rw [Task.UpdateStatus_frame]
  · intro hpending hpresent hpast
    have hov : t.IsOverdue now = true := by
      rw [Task.IsOverdue_eq_true_iff]
      refine ⟨?_, hpresent, hpast⟩
      rw [hpending]
      decide
    refine ⟨?_, by rw [hf]⟩
    rw [Task.UpdateStatus_of_overdue t now hov]

theorem C6_UpdatedAt_amended_witness :
    sampleTask.Status = StatusPending ∧
      (sampleTask.UpdateStatus ⟨200⟩).Status = StatusOverdue ∧
      (sampleTask.UpdateStatus ⟨200⟩).UpdatedAt = sampleTask.UpdatedAt ∧
      sampleTask.UpdateStatus ⟨200⟩ = { sampleTask with Status := StatusOverdue } :=
  ⟨by decide,
    ((C6_UpdatedAt_amended sampleTask ⟨200⟩).2.2.2.2.2.2.2.2.2.2.2.2.2.2
      (by decide) (by decide) (by decide)).1,
    (C6_UpdatedAt_amended sampleTask ⟨200⟩).2.2.1,
    by decide⟩

theorem Task.UpdateStatus_ID (t : Task) (now : Time) : (t.UpdateStatus now).ID = t.ID := by
  rw [Task.UpdateStatus_frame]

theorem Task.UpdateStatus_ne_completed (t : Task) (now : Time)
    (h : t.Status ≠ StatusCompleted) : (t.UpdateStatus now).Status ≠ StatusCompleted := by
  rcases Task.UpdateStatus_status t now with hs | hs <;> rw [hs]
  · exact h
  · decide

theorem TaskList.UpdateAllStatuses.loop_forall₂ (R : Task → Task → Prop)
    (hR : ∀ (t : Task) (now : Time), R t (t.UpdateStatus now)) (l : List Task)
    (clock : Nat → Time) : List.Forall₂ R l (TaskList.UpdateAllStatuses.loop l clock) := by
  induction l generalizing clock with
  | nil => exact List.Forall₂.nil
  | cons t rest ih => exact List.Forall₂.cons (hR t (clock 0)) (ih _)

/-- C7. A task that is not Completed is not made Completed by `UpdateStatus`,
by `MarkIncomplete` or, as a member of a list, by `UpdateAllStatuses`;
`UpdateStatus` and `UpdateAllStatuses` leave the status of a Completed task
Completed.  The two lists of `UpdateAllStatuses` are compared member by member,
for every sequence `clock` of clock readings. -/
theorem C7_completed_only_via_MarkComplete (t : Task) (tl : TaskList) (now : Time)
    (clock : Nat → Time) (h : t.Status ≠ StatusCompleted) :
    (t.UpdateStatus now).Status ≠ StatusCompleted ∧
      (t.MarkIncomplete now now).Status ≠ StatusCompleted ∧
      (∀ u : Task, u.Status = StatusCompleted →
        (u.UpdateStatus now).Status = StatusCompleted) ∧
      List.Forall₂
        (fun old new : Task =>
          (old.Status ≠ StatusCompleted → new.Status ≠ StatusCompleted) ∧
            (old.Status = StatusCompleted → new.Status = StatusCompleted))
        tl.Tasks (tl.UpdateAllStatuses clock).Tasks := by
  refine ⟨Task.UpdateStatus_ne_completed t now h, ?_, ?_, ?_⟩
  · unfold Task.MarkIncomplete
    exact Task.UpdateStatus_ne_completed _ now (by decide : StatusPending ≠ StatusCompleted)
  · intro u hu
    rw [Task.UpdateStatus_of_completed u now hu]
    exact hu
  · refine TaskList.UpdateAllStatuses.loop_forall₂ _ ?_ tl.Tasks clock
    intro u now'
    refine ⟨Task.UpdateStatus_ne_completed u now', ?_⟩
    intro hu
    rw [Task.UpdateStatus_of_completed u now' hu]
    exact hu

theorem C7_completed_only_via_MarkComplete_witness :
    sampleTask.Status ≠ StatusCompleted ∧
      (sampleTask.UpdateStatus ⟨200⟩).Status = StatusOverdue ∧
      (sampleTask.UpdateStatus ⟨200⟩).Status ≠ StatusCompleted ∧
      (sampleTask.MarkIncomplete ⟨200⟩ ⟨200⟩).Status ≠ StatusCompleted ∧
      (sampleList.UpdateAllStatuses (fun _ => ⟨200⟩)).Tasks.map Task.Status =
        [StatusOverdue, StatusCompleted, StatusPending] :=
  ⟨by decide, by decide,
    (C7_completed_only_via_MarkComplete sampleTask sampleList ⟨200⟩ (fun _ => ⟨200⟩)
      (by decide)).1,
    (C7_completed_only_via_MarkComplete sampleTask sampleList ⟨200⟩ (fun _ => ⟨200⟩)
      (by decide)).2.1,
    by decide⟩

/-! ## TaskList: aggregate operations -/

theorem TaskList.Remove_scan_none (id : String) (l : List Task) (i : Nat)
    (h : ∀ t ∈ l, t.ID ≠ id) : TaskList.Remove.scan id l i = none := by
  induction l generalizing i with
  | nil => rfl
  | cons t rest ih =>
    have ht : t.ID ≠ id := h t (List.mem_cons_self t rest)
    have hrest : ∀ x ∈ rest, x.ID ≠ id := fun x hx => h x (List.mem_cons_of_mem t hx)
    simp only [TaskList.Remove.scan, if_neg ht]
    exact ih (i + 1) hrest

/-- A list with a member of identifier `id` splits at the first such member. -/
theorem TaskList.split_at_first (id : String) (l : List Task) (h : ∃ t ∈ l, t.ID = id) :
    ∃ pre t post, l = pre ++ t :: post ∧ t.ID = id ∧ ∀ x ∈ pre, x.ID ≠ id := by
  induction l with
  | nil =>
    obtain ⟨t, ht, _⟩ := h
    exact absurd ht (List.not_mem_nil t)
  | cons a rest ih =>
    by_cases ha : a.ID = id
    · exact ⟨[], a, rest, rfl, ha, fun x hx => absurd hx (List.not_mem_nil x)⟩
    · have hrest : ∃ t ∈ rest, t.ID = id := by
        obtain ⟨t, ht, htid⟩ := h
        rcases List.mem_cons.1 ht with rfl | ht'
        · exact absurd htid ha
        · exact ⟨t, ht', htid⟩
      obtain ⟨pre, t, post, hl, htid, hpre⟩ := ih hrest
      refine ⟨a :: pre, t, post, by rw [hl]; rfl, htid, ?_⟩
      intro x hx
      rcases List.mem_cons.1 hx with rfl | hx'
      · exact ha
      · exact hpre x hx'

theorem TaskList.Remove_scan_split (id : String) (pre : List Task) (t : Task)
    (post : List Task) (i : Nat) (ht : t.ID = id) (hpre : ∀ x ∈ pre, x.ID ≠ id) :
    TaskList.Remove.scan id (pre ++ t :: post) i = some (i + pre.length) := by
  induction pre generalizing i with
  | nil => simp [TaskList.Remove.scan, ht]
  | cons a pre ih =>
    have ha : a.ID ≠ id := hpre a (List.mem_cons_self a pre)
    have hrest : ∀ x ∈ pre, x.ID ≠ id := fun x hx => hpre x (List.mem_cons_of_mem a hx)
    have hstep : TaskList.Remove.scan id (a :: pre ++ t :: post) i =
        TaskList.Remove.scan id (pre ++ t :: post) (i + 1) := by
      show TaskList.Remove.scan id (a :: (pre ++ t :: post)) i = _
      simp only [TaskList.Remove.scan, if_neg ha]
    rw [hstep, ih (i + 1) hrest, List.length_cons]
    congr 1
    omega

theorem TaskList.Remove_of_split (tl : TaskList) (id : String) (pre : List Task) (t : Task)
    (post : List Task) (hl : tl.Tasks = pre ++ t :: post) (ht : t.ID = id)
    (hpre : ∀ x ∈ pre, x.ID ≠ id) : tl.Remove id = ({ Tasks := pre ++ post }, true) := by
  have hscan : TaskList.Remove.scan id tl.Tasks 0 = some pre.length := by
    rw [hl, TaskList.Remove_scan_split id pre t post 0 ht hpre, Nat.zero_add]
  have htake : (pre ++ t :: post).take pre.length = pre := by simp
  have hdrop : (pre ++ t :: post).drop (pre.length + 1) = post := by simp
  simp only [TaskList.Remove, hscan]
  rw [hl, htake, hdrop]

theorem TaskList.Remove_of_not_mem (tl : TaskList) (id : String)
    (h : ∀ t ∈ tl.Tasks, t.ID ≠ id) : tl.Remove id = (tl, false) := by
  simp only [TaskList.Remove, TaskList.Remove_scan_none id tl.Tasks 0 h]

/-- C8. `Remove(id)` returns true exactly when some task of the list has the
identifier.  When it returns true the list was `pre ++ t :: post` with `t` the
first task of that identifier, and it becomes `pre ++ post`, one shorter; when
it returns false the list is unchanged. -/
theorem C8_Remove_first_match (tl : TaskList) (id : String) :
    ((tl.Remove id).2 = true ↔ ∃ t ∈ tl.Tasks, t.ID = id) ∧
      ((tl.Remove id).2 = true →
        ∃ pre t post, tl.Tasks = pre ++ t :: post ∧ t.ID = id ∧ (∀ x ∈ pre, x.ID ≠ id) ∧
          (tl.Remove id).1.Tasks = pre ++ post ∧
          (tl.Remove id).1.Tasks.length + 1 = tl.Tasks.length) ∧
      ((tl.Remove id).2 = false → (tl.Remove id).1 = tl) := by
  by_cases h : ∃ t ∈ tl.Tasks, t.ID = id
  · obtain ⟨pre, t, post, hl, ht, hpre⟩ := TaskList.split_at_first id tl.Tasks h
    have hrem := TaskList.Remove_of_split tl id pre t post hl ht hpre
    refine ⟨⟨fun _ => h, fun _ => by rw [hrem]⟩, ?_, ?_⟩
    · intro _
      refine ⟨pre, t, post, hl, ht, hpre, by rw [hrem], ?_⟩
      rw [hrem, hl]
      simp only [List.length_append, List.length_cons]
      omega
    · intro hfalse
      rw [hrem] at hfalse
      exact Bool.noConfusion hfalse
  · have hnone : ∀ t ∈ tl.Tasks, t.ID ≠ id := fun t ht htid => h ⟨t, ht, htid⟩
    have hrem := TaskList.Remove_of_not_mem tl id hnone
    refine ⟨⟨fun htrue => ?_, fun hex => absurd hex h⟩, ?_, ?_⟩
    · rw [hrem] at htrue
      exact Bool.noConfusion htrue
    · intro htrue
      rw [hrem] at htrue
      exact Bool.noConfusion htrue
    · intro _
      rw [hrem]

theorem C8_Remove_first_match_witness :
    (sampleDupList.Remove "t1").2 = true ∧
      (sampleDupList.Remove "t1").1.Tasks =
        [sampleNoDue, sampleDone, { sampleDone with ID := "t1" }] ∧
      (sampleDupList.Remove "t9").2 = false ∧
      (sampleDupList.Remove "t9").1 = sampleDupList ∧
      ∃ pre t post, sampleDupList.Tasks = pre ++ t :: post ∧ t.ID = "t1" ∧
        (∀ x ∈ pre, x.ID ≠ "t1") ∧ (sampleDupList.Remove "t1").1.Tasks = pre ++ post ∧
        (sampleDupList.Remove "t1").1.Tasks.length + 1 = sampleDupList.Tasks.length :=
  ⟨by decide, by decide, by decide,
    (C8_Remove_first_match sampleDupList "t9").2.2 (by decide),
    (C8_Remove_first_match sampleDupList "t1").2.1 (by decide)⟩

theorem TaskList.GetByID_scan_none (id : String) (l : List Task)
    (h : ∀ t ∈ l, t.ID ≠ id) : TaskList.GetByID.scan id l = none := by
  induction l with
  | nil => rfl
  | cons t rest ih =>
    have ht : t.ID ≠ id := h t (List.mem_cons_self t rest)
    simp only [TaskList.GetByID.scan, if_neg ht]
    exact ih (fun x hx => h x (List.mem_cons_of_mem t hx))

theorem TaskList.GetByID_scan_split (id : String) (pre : List Task) (t : Task)
    (post : List Task) (ht : t.ID = id) (hpre : ∀ x ∈ pre, x.ID ≠ id) :
    TaskList.GetByID.scan id (pre ++ t :: post) = some t := by
  induction pre with
  | nil => simp [TaskList.GetByID.scan, ht]
  | cons a pre ih =>
    have ha : a.ID ≠ id := hpre a (List.mem_cons_self a pre)
    show TaskList.GetByID.scan id (a :: (pre ++ t :: post)) = _
    simp only [TaskList.GetByID.scan, if_neg ha]
    exact ih (fun x hx => hpre x (List.mem_cons_of_mem a hx))

/-- C9. `GetByID(id)` returns a task `r` exactly when `r` is the first task in
list order whose identifier is `id` (the list is `pre ++ r :: post` with no
task of `pre` having the identifier); it returns nil exactly when no task of
the list has the identifier; and the list is left as it was. -/
theorem C9_GetByID_first_match (tl : TaskList) (id : String) :
    (∀ r : Task, (tl.GetByID id).2 = some r ↔
        ∃ pre post, tl.Tasks = pre ++ r :: post ∧ r.ID = id ∧ ∀ x ∈ pre, x.ID ≠ id) ∧
      ((tl.GetByID id).2 = none ↔ ∀ t ∈ tl.Tasks, t.ID ≠ id) ∧
      (tl.GetByID id).1 = tl := by
  have hval : (tl.GetByID id).2 = TaskList.GetByID.scan id tl.Tasks := rfl
  by_cases h : ∃ t ∈ tl.Tasks, t.ID = id
  · obtain ⟨pre, t, post, hl, ht, hpre⟩ := TaskList.split_at_first id tl.Tasks h
    have hscan : TaskList.GetByID.scan id tl.Tasks = some t := by
      rw [hl]
      exact TaskList.GetByID_scan_split id pre t post ht hpre
    refine ⟨fun r => ⟨fun hr => ?_, fun hr => ?_⟩, ⟨fun hnone => ?_, fun hall => ?_⟩, rfl⟩
    · rw [hval, hscan] at hr
      have hrt : t = r := Option.some.inj hr
      subst hrt
      exact ⟨pre, post, hl, ht, hpre⟩
    · obtain ⟨pre', post', hl', hr', hpre'⟩ := hr
      rw [hval, hl']
      exact TaskList.GetByID_scan_split id pre' r post' hr' hpre'
    · rw [hval, hscan] at hnone
      exact Option.noConfusion hnone
    · obtain ⟨u, hu, huid⟩ := h
      exact absurd huid (hall u hu)
  · have hall : ∀ t ∈ tl.Tasks, t.ID ≠ id := fun t ht htid => h ⟨t, ht, htid⟩
    have hscan := TaskList.GetByID_scan_none id tl.Tasks hall
    refine ⟨fun r => ⟨fun hr => ?_, fun hr => ?_⟩, ⟨fun _ => hall, fun _ => ?_⟩, rfl⟩
    · rw [hval, hscan] at hr
      exact Option.noConfusion hr
    · obtain ⟨pre', post', hl', hr', _⟩ := hr
      have hmem : r ∈ tl.Tasks := by
        rw [hl']
        exact List.mem_append_right pre' (List.mem_cons_self r post')
      exact absurd hr' (hall r hmem)
    · rw [hval, hscan]

theorem C9_GetByID_first_match_witness :
    (sampleDupList.GetByID "t1").2 = some sampleTask ∧
      (sampleDupList.GetByID "t9").2 = none ∧
      ∃ pre post, sampleDupList.Tasks = pre ++ sampleTask :: post ∧ sampleTask.ID = "t1" ∧
        ∀ x ∈ pre, x.ID ≠ "t1" :=
  ⟨by decide, by decide,
    ((C9_GetByID_first_match sampleDupList "t1").1 sampleTask).1 (by decide)⟩

theorem TaskList.UpdateAllStatuses.loop_ids (l : List Task) (clock : Nat → Time) :
    (TaskList.UpdateAllStatuses.loop l clock).map Task.ID = l.map Task.ID := by
  induction l generalizing clock with
  | nil => rfl
  | cons t rest ih =>
    simp only [TaskList.UpdateAllStatuses.loop, List.map_cons, Task.UpdateStatus_ID, ih]

theorem TaskList.UpdateAllStatuses_ids (tl : TaskList) (clock : Nat → Time) :
    (tl.UpdateAllStatuses clock).ids = tl.ids :=
  TaskList.UpdateAllStatuses.loop_ids tl.Tasks clock

theorem TaskList.Remove_sublist (tl : TaskList) (id : String) :
    (tl.Remove id).1.Tasks.Sublist tl.Tasks := by
  by_cases h : ∃ t ∈ tl.Tasks, t.ID = id
  · obtain ⟨pre, t, post, hl, ht, hpre⟩ := TaskList.split_at_first id tl.Tasks h
    rw [TaskList.Remove_of_split tl id pre t post hl ht hpre, hl]
    exact List.Sublist.append (List.Sublist.refl pre) (List.sublist_cons_self t post)
  · rw [TaskList.Remove_of_not_mem tl id (fun t ht htid => h ⟨t, ht, htid⟩)]

theorem TaskList.Add_ids (tl : TaskList) (t : Task) : (tl.Add t).ids = tl.ids ++ [t.ID] := by
  simp [TaskList.ids, TaskList.Add]

/-- C10. If the identifiers of a list are pairwise distinct, they are so after
`Remove(id)` for any `id`, after `UpdateAllStatuses` (for every sequence of
clock readings), and after `Add(t)` when the identifier of `t` does not occur in
the list.  `Add` is a plain append for every list and task: it makes no
duplicate check, so adding an identifier that already occurs gives a list with a
repeated identifier. -/
theorem C10_unique_ids_invariant (tl : TaskList) (id : String) (clock : Nat → Time)
    (t : Task) (hnodup : tl.ids.Nodup) :
    (tl.Remove id).1.ids.Nodup ∧
      (tl.UpdateAllStatuses clock).ids.Nodup ∧
      (t.ID ∉ tl.ids → (tl.Add t).ids.Nodup) ∧
      (∀ (l : TaskList) (u : Task), (l.Add u).Tasks = l.Tasks ++ [u]) ∧
      (∀ (l : TaskList) (u : Task), u.ID ∈ l.ids → ¬ (l.Add u).ids.Nodup) := by
  refine ⟨?_, ?_, ?_, fun _ _ => rfl, ?_⟩
  · exact List.Nodup.sublist (List.Sublist.map Task.ID (TaskList.Remove_sublist tl id)) hnodup
  · rw [TaskList.UpdateAllStatuses_ids]
    exact hnodup
  · intro hnew
    rw [TaskList.Add_ids]
    exact List.Nodup.append hnodup (List.nodup_singleton _)
      (List.disjoint_singleton.2 hnew)
  · intro l u hu hn
    rw [TaskList.Add_ids] at hn
    exact (List.disjoint_of_nodup_append hn) hu (List.mem_singleton_self _)

theorem C10_unique_ids_invariant_witness :
    sampleList.ids.Nodup ∧
      (sampleList.Remove "t2").1.ids = ["t1", "t3"] ∧
      (sampleList.Remove "t2").1.ids.Nodup ∧
      (sampleList.UpdateAllStatuses (fun _ => ⟨200⟩)).ids.Nodup ∧
      ((sampleList.Add { sampleDone with ID := "t4" }).ids.Nodup) ∧
      ¬ (sampleList.Add sampleDone).ids.Nodup :=
  ⟨by decide, by decide,
    (C10_unique_ids_invariant sampleList "t2" (fun _ => ⟨200⟩) { sampleDone with ID := "t4" }
      (by decide)).1,
    (C10_unique_ids_invariant sampleList "t2" (fun _ => ⟨200⟩) { sampleDone with ID := "t4" }
      (by decide)).2.1,
    (C10_unique_ids_invariant sampleList "t2" (fun _ => ⟨200⟩) { sampleDone with ID := "t4" }
      (by decide)).2.2.1 (by decide),
    (C10_unique_ids_invariant sampleList "t2" (fun _ => ⟨200⟩) { sampleDone with ID := "t4" }
      (by decide)).2.2.2.2 sampleList sampleDone (by decide)⟩

/-! ## Filter engine -/

theorem Time.IsZero_eq_false_iff (t : Time) : t.IsZero = false ↔ t ≠ Time.zero := by
  obtain ⟨n⟩ := t
  simp [Time.IsZero, Time.zero]

theorem Filter.Apply.loop_eq (u : UnicodeTables) (f : Filter) (tasks filtered : List Task) :
    Filter.Apply.loop u f tasks filtered = filtered ++ tasks.filter (f.matches u) := by
  induction tasks generalizing filtered with
  | nil => simp [Filter.Apply.loop]
  | cons task rest ih =>
    by_cases h : f.matches u task = true
    · simp [Filter.Apply.loop, h, ih]
    · simp [Filter.Apply.loop, h, ih]

theorem Filter.Apply_eq_filter (u : UnicodeTables) (f : Filter) (tasks : List Task) :
    f.Apply u tasks = tasks.filter (f.matches u) := by
  simp [Filter.Apply, Filter.Apply.loop_eq]

theorem Filter.taskTagLoop_iff (u : UnicodeTables) (filterTag : String)
    (taskTags : List String) :
    Filter.matches.taskTagLoop u filterTag taskTags = true ↔
      ∃ taskTag ∈ taskTags, strings.EqualFold u taskTag filterTag = true := by
  induction taskTags with
  | nil => simp [Filter.matches.taskTagLoop]
  | cons t rest ih =>
    by_cases h : strings.EqualFold u t filterTag = true
    · simp [Filter.matches.taskTagLoop, h]
    · simp [Filter.matches.taskTagLoop, h, ih]

theorem Filter.filterTagLoop_iff (u : UnicodeTables) (taskTags filterTags : List String) :
    Filter.matches.filterTagLoop u taskTags filterTags = true ↔
      ∃ filterTag ∈ filterTags, ∃ taskTag ∈ taskTags,
        strings.EqualFold u taskTag filterTag = true := by
  induction filterTags with
  | nil => simp [Filter.matches.filterTagLoop]
  | cons ft rest ih =>
    by_cases h : Filter.matches.taskTagLoop u ft taskTags = true
    · have h' := (Filter.taskTagLoop_iff u ft taskTags).1 h
      simp [Filter.matches.filterTagLoop, h, h']
    · have h' : ¬ ∃ taskTag ∈ taskTags, strings.EqualFold u taskTag ft = true :=
        fun hex => h ((Filter.taskTagLoop_iff u ft taskTags).2 hex)
      simp only [Filter.matches.filterTagLoop, h, List.mem_cons, exists_eq_or_imp, h']
      simpa using ih

theorem Filter.guard_chain (g r : Bool) :
    (if g = true then false else r) = true ↔ g = false ∧ r = true := by
  cases g <;> simp

/-- The method `matches` accepts a task exactly when the task passes every
configured criterion. -/
theorem Filter.matches_iff_passesAll (u : UnicodeTables) (f : Filter) (task : Task) :
    f.matches u task = true ↔ f.passesAll u task := by
  unfold Filter.matches Filter.passesAll
  simp only [Filter.guard_chain, and_true]
  refine and_congr ?_ (and_congr ?_ (and_congr ?_ (and_congr ?_ (and_congr ?_
    (and_congr ?_ ?_)))))
  · rcases f.Status with _ | status <;> simp
  · rcases f.Priority with _ | priority <;> simp
  · by_cases hp : f.Project = "" <;> simp [hp]
  · rw [← Filter.filterTagLoop_iff]
    rcases f.Tags with _ | ⟨tag, rest⟩ <;> simp
  · by_cases hk : f.Keyword = "" <;> simp [hk]
    cases strings.Contains (strings.ToLower u task.Title) (strings.ToLower u f.Keyword) <;>
      simp
  · by_cases hz : f.DateFrom = Time.zero
    · simp [hz, Time.IsZero, Time.zero]
    · simp [hz, (Time.IsZero_eq_false_iff f.DateFrom).2 hz, Time.Before]
  · by_cases hz : f.DateTo = Time.zero
    · simp [hz, Time.IsZero, Time.zero]
    · simp [hz, (Time.IsZero_eq_false_iff f.DateTo).2 hz, Time.After]

theorem Filter.matches_empty (u : UnicodeTables) (task : Task) :
    Filter.empty.matches u task = true := by
  rw [Filter.matches_iff_passesAll]
  simp [Filter.passesAll, Filter.empty]

/-- C11. `Apply` keeps exactly the tasks that pass every configured criterion,
in their input order and with their multiplicity: the result is the input list
filtered by `matches`, and `matches` holds exactly for the tasks passing all
criteria.  A filter with only Status `s` and Priority `p` configured returns
exactly the tasks of status `s` and priority `p`. -/
theorem C11_Apply_conjunction (u : UnicodeTables) (f : Filter) (tasks : List Task)
    (s : Status) (p : Priority) :
    f.Apply u tasks = tasks.filter (f.matches u) ∧
      (∀ task, f.matches u task = true ↔ f.passesAll u task) ∧
      (f.Apply u tasks).Sublist tasks ∧
      (∀ task, task ∈ f.Apply u tasks ↔ task ∈ tasks ∧ f.passesAll u task) ∧
      (∀ task, f.passesAll u task → (f.Apply u tasks).count task = tasks.count task) ∧
      Filter.Apply u { Filter.empty with Status := some s, Priority := some p } tasks =
        tasks.filter (fun task => decide (task.Status = s ∧ task.Priority = p)) := by
  refine ⟨Filter.Apply_eq_filter u f tasks, Filter.matches_iff_passesAll u f, ?_, ?_, ?_, ?_⟩
  · rw [Filter.Apply_eq_filter]
    exact List.filter_sublist tasks
  · intro task
    rw [Filter.Apply_eq_filter, List.mem_filter, Filter.matches_iff_passesAll]
  · intro task hpass
    rw [Filter.Apply_eq_filter]
    exact List.count_filter ((Filter.matches_iff_passesAll u f task).2 hpass)
  · rw [Filter.Apply_eq_filter]
    apply List.filter_congr
    intro task _
    rw [Bool.eq_iff_iff, Filter.matches_iff_passesAll]
    simp [Filter.passesAll, Filter.empty]

theorem C11_Apply_conjunction_witness :
    Filter.Apply UnicodeTables.asciiOnly
        { Filter.empty with Status := some StatusCompleted, Priority := some PriorityHigh }
        [sampleTask, sampleDone, { sampleDone with ID := "t5", Priority := PriorityLow },
          sampleNoDue, { sampleDone with ID := "t6" }] =
      [sampleDone, { sampleDone with ID := "t6" }] ∧
    Filter.Apply UnicodeTables.asciiOnly
        { Filter.empty with Status := some StatusCompleted, Priority := some PriorityHigh }
        [sampleTask, sampleDone, { sampleDone with ID := "t5", Priority := PriorityLow },
          sampleNoDue, { sampleDone with ID := "t6" }] =
      List.filter (fun task => decide (task.Status = StatusCompleted ∧
          task.Priority = PriorityHigh))
        [sampleTask, sampleDone, { sampleDone with ID := "t5", Priority := PriorityLow },
          sampleNoDue, { sampleDone with ID := "t6" }] :=
  ⟨by decide,
    (C11_Apply_conjunction UnicodeTables.asciiOnly Filter.empty
      [sampleTask, sampleDone, { sampleDone with ID := "t5", Priority := PriorityLow },
        sampleNoDue, { sampleDone with ID := "t6" }] StatusCompleted PriorityHigh).2.2.2.2.2⟩

/-- C12. For a filter whose only configured criterion is a non-empty tag list,
a task passes exactly when one of its tags equals one of the filter tags under
`strings.EqualFold`.  Filtering by the tags "urgent", "home" returns a task
tagged only "home", and a task without tags never passes. -/
theorem C12_tags_inclusive_or (u : UnicodeTables) (tags : List String) (task : Task)
    (hne : tags ≠ []) :
    ((NewTagFilter tags).matches u task = true ↔
        ∃ taskTag ∈ task.Tags, ∃ filterTag ∈ tags,
          strings.EqualFold u taskTag filterTag = true) ∧
      (task.Tags = [] → (NewTagFilter tags).matches u task = false ∧
        (NewTagFilter tags).Apply u [task] = []) ∧
      (task.Tags = ["home"] → (NewTagFilter ["urgent", "home"]).matches u task = true ∧
        (NewTagFilter ["urgent", "home"]).Apply u [task] = [task]) := by
  have hiff : ∀ (tags : List String), tags ≠ [] → ((NewTagFilter tags).matches u task = true ↔
      ∃ taskTag ∈ task.Tags, ∃ filterTag ∈ tags,
        strings.EqualFold u taskTag filterTag = true) := by
    intro tags hne
    rw [Filter.matches_iff_passesAll]
    simp only [Filter.passesAll, NewTagFilter, Filter.empty]
    constructor
    · intro h
      obtain ⟨filterTag, hf, taskTag, ht, heq⟩ := h.2.2.2.1 hne
      exact ⟨taskTag, ht, filterTag, hf, heq⟩
    · intro h
      obtain ⟨taskTag, ht, filterTag, hf, heq⟩ := h
      refine ⟨by simp, by simp, by simp, fun _ => ⟨filterTag, hf, taskTag, ht, heq⟩, by simp,
        by simp, by simp⟩
  refine ⟨hiff tags hne, ?_, ?_⟩
  · intro hnone
    have hfalse : (NewTagFilter tags).matches u task = false := by
      rw [← Bool.not_eq_true, hiff tags hne, hnone]
      simp
    exact ⟨hfalse, by simp [Filter.Apply_eq_filter, hfalse]⟩
  · intro hhome
    have htrue : (NewTagFilter ["urgent", "home"]).matches u task = true := by
      rw [hiff _ (by simp), hhome]
      exact ⟨"home", by simp, "home", by simp, rfl⟩
    exact ⟨htrue, by simp [Filter.Apply_eq_filter, htrue]⟩

theorem C12_tags_inclusive_or_witness :
    ["urgent", "home"] ≠ [] ∧
      (NewTagFilter ["urgent", "home"]).Apply UnicodeTables.asciiOnly
          [sampleTask, sampleDone, { sampleNoDue with Tags := ["Work", "URGENT"] }] =
        [sampleTask, { sampleNoDue with Tags := ["Work", "URGENT"] }] ∧
      ((NewTagFilter ["urgent", "home"]).matches UnicodeTables.asciiOnly sampleTask = true ↔
        ∃ taskTag ∈ sampleTask.Tags, ∃ filterTag ∈ ["urgent", "home"],
          strings.EqualFold UnicodeTables.asciiOnly taskTag filterTag = true) :=
  ⟨by decide, by decide,
    (C12_tags_inclusive_or UnicodeTables.asciiOnly ["urgent", "home"] sampleTask
      (by decide)).1⟩

theorem strings.Contains.search_iff (substr text : List Char) :
    strings.Contains.search substr text = true ↔ substr <:+: text := by
  induction text with
  | nil => simp [strings.Contains.search]
  | cons c rest ih =>
    by_cases hp : substr.isPrefixOf (c :: rest) = true
    · simp only [strings.Contains.search, hp, if_true, true_iff]
      exact (List.isPrefixOf_iff_prefix.1 hp).isInfix
    · have hp' : ¬ substr <+: c :: rest := fun h => hp (List.isPrefixOf_iff_prefix.2 h)
      simp only [strings.Contains.search, hp, if_false, ih, Bool.false_eq_true]
      rw [List.infix_cons_iff]
      exact ⟨Or.inr, fun h => h.resolve_left hp'⟩

/-- C13. For a filter whose only configured criterion is a non-empty keyword
`k`, a task passes exactly when the lower-cased title or the lower-cased
description contains the lower-cased keyword as a contiguous run of runes.  On
the example tasks A, B, C the keywords "ba" and "BA" both return exactly C. -/
theorem C13_keyword_substring (u : UnicodeTables) (k : String) (task : Task)
    (hk : k ≠ "") :
    ((NewKeywordFilter k).matches u task = true ↔
        strings.Contains (strings.ToLower u task.Title) (strings.ToLower u k) = true ∨
          strings.Contains (strings.ToLower u task.Description) (strings.ToLower u k) = true) ∧
      ((NewKeywordFilter k).matches u task = true ↔
        (strings.ToLower u k).data <:+: (strings.ToLower u task.Title).data ∨
          (strings.ToLower u k).data <:+: (strings.ToLower u task.Description).data) ∧
      (NewKeywordFilter "ba").Apply u [taskA, taskB, taskC] = [taskC] ∧
      (NewKeywordFilter "BA").Apply u [taskA, taskB, taskC] = [taskC] := by
  have hiff : (NewKeywordFilter k).matches u task = true ↔
      strings.Contains (strings.ToLower u task.Title) (strings.ToLower u k) = true ∨
        strings.Contains (strings.ToLower u task.Description) (strings.ToLower u k) = true := by
    rw [Filter.matches_iff_passesAll]
    simp [Filter.passesAll, NewKeywordFilter, Filter.empty, hk]
  refine ⟨hiff, ?_, rfl, rfl⟩
  rw [hiff]
  simp only [strings.Contains, strings.Contains.search_iff]

theorem C13_keyword_substring_witness :
    "ba" ≠ "" ∧
      (NewKeywordFilter "ba").Apply UnicodeTables.asciiOnly [taskA, taskB, taskC] = [taskC] ∧
      (NewKeywordFilter "BA").Apply UnicodeTables.asciiOnly [taskA, taskB, taskC] = [taskC] ∧
      (NewKeywordFilter "RENT").Apply UnicodeTables.asciiOnly
          [taskA, { taskB with Title := "Landlord", Description := "pay the Rent" }, taskC] =
        [{ taskB with Title := "Landlord", Description := "pay the Rent" }] :=
  ⟨by decide,
    (C13_keyword_substring UnicodeTables.asciiOnly "ba" taskC (by decide)).2.2.1,
    (C13_keyword_substring UnicodeTables.asciiOnly "ba" taskC (by decide)).2.2.2,
    by decide⟩

/-- C14, the claim refuted.  With From set to 0000-06-01, an instant before the
zero time, a task without a due date passes the filter; with only To set to
that instant such a task is rejected; and with From (2024-01-10) later than To
(2024-01-05) the task due exactly at From is rejected. -/
theorem C14_zero_due_date_vs_early_bounds :
    Time.juneOfYearZero ≠ Time.zero ∧
      sampleNoDue.DueDate = Time.zero ∧
      (Filter.dateRange Time.juneOfYearZero Time.zero).matches UnicodeTables.asciiOnly
        sampleNoDue = true ∧
      (Filter.dateRange Time.zero Time.juneOfYearZero).matches UnicodeTables.asciiOnly
        sampleNoDue = false ∧
      taskA.DueDate = Time.unix 1704844800 ∧
      (Filter.dateRange (Time.unix 1704844800) (Time.unix 1704412800)).matches
        UnicodeTables.asciiOnly taskA = false := by
  decide

/-- C14, amended.  For a filter with only From and/or To configured, a task
passes exactly when its due date is not strictly before From (when From is set)
and not strictly after To (when To is set), an absent due date being compared as
the zero time.  So a task due exactly at From, or exactly at To, passes when the
other bound is unset or From is not after To; a task without a due date is
rejected when From is later than the zero time, and is accepted by a filter that
sets only To when To is later than the zero time. -/
theorem C14_date_range_amended (u : UnicodeTables) (dateFrom dateTo : Time) (task : Task) :
    ((Filter.dateRange dateFrom dateTo).matches u task = true ↔
        (dateFrom ≠ Time.zero → ¬ task.DueDate.ns < dateFrom.ns) ∧
          (dateTo ≠ Time.zero → ¬ dateTo.ns < task.DueDate.ns)) ∧
      (task.DueDate = dateFrom → dateTo = Time.zero ∨ dateFrom.ns ≤ dateTo.ns →
        (Filter.dateRange dateFrom dateTo).matches u task = true) ∧
      (task.DueDate = dateTo → dateFrom = Time.zero ∨ dateFrom.ns ≤ dateTo.ns →
        (Filter.dateRange dateFrom dateTo).matches u task = true) ∧
      (task.DueDate = Time.zero → 0 < dateFrom.ns →
        (Filter.dateRange dateFrom dateTo).matches u task = false) ∧
      (task.DueDate = Time.zero → dateFrom = Time.zero → 0 < dateTo.ns →
        (Filter.dateRange dateFrom dateTo).matches u task = true) := by
  have hiff : (Filter.dateRange dateFrom dateTo).matches u task = true ↔
      (dateFrom ≠ Time.zero → ¬ task.DueDate.ns < dateFrom.ns) ∧
        (dateTo ≠ Time.zero → ¬ dateTo.ns < task.DueDate.ns) := by
    rw [Filter.matches_iff_passesAll]
    simp [Filter.passesAll, Filter.dateRange, Filter.empty]
  have hzero : ∀ t : Time, t = Time.zero ↔ t.ns = 0 := by
    intro t
    obtain ⟨n⟩ := t
    simp [Time.zero]
  refine ⟨hiff, ?_, ?_, ?_, ?_⟩
  · intro hdue hrange
    rw [hiff, hdue]
    refine ⟨fun _ => by omega, fun hto => ?_⟩
    rcases hrange with h | h
    · exact absurd h hto
    · omega
  · intro hdue hrange
    rw [hiff, hdue]
    refine ⟨fun hfrom => ?_, fun _ => by omega⟩
    rcases hrange with h | h
    · exact absurd h hfrom
    · omega
  · intro hdue hpos
    rw [← Bool.not_eq_true, hiff, hdue]
    intro h
    have hne : dateFrom ≠ Time.zero := fun h0 => by
      rw [(hzero dateFrom).1 h0] at hpos
      exact absurd hpos (by decide)
    exact h.1 hne hpos
  · intro hdue hfrom hpos
    rw [hiff, hdue]
    refine ⟨fun hne => absurd hfrom hne, fun _ => ?_⟩
    show ¬ dateTo.ns < (0 : Int)
    omega

theorem C14_date_range_amended_witness :
    (Filter.dateRange (Time.unix 1704412800) (Time.unix 1704844800)).Apply
        UnicodeTables.asciiOnly [taskA, taskB, taskC] = [taskA, taskC] ∧
      (Filter.dateRange Time.zero (Time.unix 1704412800)).Apply
        UnicodeTables.asciiOnly [taskA, taskB, taskC] = [taskB, taskC] ∧
      (Filter.dateRange (Time.unix 1704412800) (Time.unix 1704844800)).matches
        UnicodeTables.asciiOnly taskB = false ∧
      (Filter.dateRange Time.zero (Time.unix 1704412800)).matches
        UnicodeTables.asciiOnly taskB = true :=
  ⟨by decide, by decide,
    (C14_date_range_amended UnicodeTables.asciiOnly (Time.unix 1704412800)
      (Time.unix 1704844800) taskB).2.2.2.1 (by decide) (by decide),
    (C14_date_range_amended UnicodeTables.asciiOnly Time.zero
      (Time.unix 1704412800) taskB).2.2.2.2 (by decide) (by decide) (by decide)⟩

/-- C15. The filter with no criterion configured (no status, no priority,
empty project, no tags, empty keyword, zero From and To) accepts every task, so
`Apply` returns all tasks in their original order; `Apply` is a total function
of the filter and the task list. -/
theorem C15_empty_filter_keeps_all (u : UnicodeTables) (tasks : List Task) :
    Filter.empty.Apply u tasks = tasks ∧
      (∀ task, Filter.empty.matches u task = true) ∧
      (∀ f : Filter, ∃ result, f.Apply u tasks = result ∧ result.Sublist tasks) := by
  refine ⟨?_, Filter.matches_empty u, ?_⟩
  · rw [Filter.Apply_eq_filter]
    exact List.filter_eq_self.2 (fun task _ => Filter.matches_empty u task)
  · intro f
    refine ⟨f.Apply u tasks, rfl, ?_⟩
    rw [Filter.Apply_eq_filter]
    exact List.filter_sublist tasks

/-- C20. `Priority.String` maps Low, Medium, High to "low", "medium", "high" and
`ParsePriority` maps these back; every other string, such as the empty string,
"High" and "unknown", is parsed as Low. -/
theorem C20_priority_roundtrip :
    Priority.String PriorityLow = "low" ∧
      Priority.String PriorityMedium = "medium" ∧
      Priority.String PriorityHigh = "high" ∧
      ParsePriority (Priority.String PriorityLow) = PriorityLow ∧
      ParsePriority (Priority.String PriorityMedium) = PriorityMedium ∧
      ParsePriority (Priority.String PriorityHigh) = PriorityHigh ∧
      (∀ s : String, s ≠ "low" → s ≠ "medium" → s ≠ "high" →
        ParsePriority s = PriorityLow) ∧
      ParsePriority "" = PriorityLow ∧
      ParsePriority "High" = PriorityLow ∧
      ParsePriority "unknown" = PriorityLow := by
  refine ⟨by decide, by decide, by decide, by decide, by decide, by decide, ?_, by decide,
    by decide, by decide⟩
  intro s h1 h2 h3
  simp [ParsePriority, h1, h2, h3]

/-! ## Sort engine -/

theorem sort.strictWeak_of_key (key : Task → Int) (less : Task → Task → Bool)
    (h : ∀ a b, less a b = true ↔ key a < key b) : sort.StrictWeakOrdering less := by
  have hf : ∀ a b, less a b = false ↔ ¬ key a < key b := fun a b => by
    rw [← Bool.not_eq_true, h]
  refine ⟨fun a => ?_, fun a b c => ?_, fun a b c => ?_⟩
  · rw [hf]
    omega
  · rw [h, h, h]
    omega
  · rw [hf, hf, hf]
    omega

theorem sortpkg.sortByPriority_less_strictWeak (ascending : Bool) :
    sort.StrictWeakOrdering (sortpkg.sortByPriority.less ascending) := by
  cases ascending
  · refine sort.strictWeak_of_key (fun t => -t.Priority) _ (fun a b => ?_)
    simp [sortpkg.sortByPriority.less]
  · refine sort.strictWeak_of_key (fun t => t.Priority) _ (fun a b => ?_)
    simp [sortpkg.sortByPriority.less]

theorem sortpkg.sortByCreatedAt_less_strictWeak (ascending : Bool) :
    sort.StrictWeakOrdering (sortpkg.sortByCreatedAt.less ascending) := by
  cases ascending <;>
    refine ⟨fun a => ?_, fun a b c => ?_, fun a b c => ?_⟩ <;>
    simp only [sortpkg.sortByCreatedAt.less, if_true, if_false, Bool.false_eq_true,
      Time.Before, Time.After, decide_eq_true_eq, decide_eq_false_iff_not] <;>
    omega

/-- The closure of `sortByDueDate`, case by case. -/
theorem sortpkg.sortByDueDate_less_iff (ascending : Bool) (ti tj : Task) :
    sortpkg.sortByDueDate.less ascending ti tj = true ↔
      ti.DueDate.ns ≠ 0 ∧
        (tj.DueDate.ns = 0 ∨
          (ascending = true ∧ ti.DueDate.ns < tj.DueDate.ns) ∨
          (ascending = false ∧ tj.DueDate.ns < ti.DueDate.ns)) := by
  by_cases hi : ti.DueDate.ns = 0 <;> by_cases hj : tj.DueDate.ns = 0 <;>
    cases ascending <;>
    simp [sortpkg.sortByDueDate.less, Time.IsZero, Time.Before, Time.After, hi, hj]

theorem sortpkg.sortByDueDate_less_strictWeak (ascending : Bool) :
    sort.StrictWeakOrdering (sortpkg.sortByDueDate.less ascending) := by
  refine ⟨fun a => ?_, fun a b c => ?_, fun a b c => ?_⟩
  · rw [← Bool.not_eq_true, sortpkg.sortByDueDate_less_iff]
    cases ascending <;> simp
  · rw [sortpkg.sortByDueDate_less_iff, sortpkg.sortByDueDate_less_iff,
      sortpkg.sortByDueDate_less_iff]
    cases ascending <;> simp <;> omega
  · rw [← Bool.not_eq_true, ← Bool.not_eq_true, ← Bool.not_eq_true,
      sortpkg.sortByDueDate_less_iff, sortpkg.sortByDueDate_less_iff,
      sortpkg.sortByDueDate_less_iff]
    cases ascending <;> simp <;> omega

theorem sort.insertionSlice_contract : sort.SliceContract sort.insertionSlice := by
  refine ⟨fun x less => List.perm_insertionSort _ x, fun x less hless => ?_⟩
  obtain ⟨hirr, htrans, hneg⟩ := hless
  haveI : IsTotal Task (fun a b => less b a = false) := ⟨fun a b => by
    cases hba : less b a
    · exact Or.inl rfl
    · cases hab : less a b
      · exact Or.inr rfl
      · have := htrans a b a hab hba
        rw [hirr a] at this
        exact Bool.noConfusion this⟩
  haveI : IsTrans Task (fun a b => less b a = false) :=
    ⟨fun a b c hab hbc => hneg c b a hbc hab⟩
  exact List.sorted_insertionSort (fun a b => less b a = false) x

theorem sort.adaptiveSlice_contract : sort.SliceContract sort.adaptiveSlice := by
  obtain ⟨hperm, hsorted⟩ := sort.insertionSlice_contract
  refine ⟨fun x less => ?_, fun x less hless => ?_⟩
  · unfold sort.adaptiveSlice
    split
    · split
      · exact (hperm x.reverse less).trans (List.reverse_perm x)
      · exact hperm x less
    · exact List.Perm.refl x
  · unfold sort.adaptiveSlice
    split
    · split
      · exact hsorted x.reverse less hless
      · exact hsorted x less hless
    · rename_i hnot
      cases x with
      | nil => exact List.Pairwise.nil
      | cons a rest =>
        exact (hnot a ((a :: rest).getLast (List.cons_ne_nil a rest))
          rfl (List.getLast?_eq_getLast _ _)).elim

theorem Time.eq_zero_iff (t : Time) : t = Time.zero ↔ t.ns = 0 := by
  obtain ⟨n⟩ := t
  simp [Time.zero]

theorem sortpkg.Sort_dueDate (slice : sort.SliceFunc) (tasks : List Task) (ascending : Bool) :
    sortpkg.Sort slice tasks sortpkg.SortByDueDate ascending =
      slice tasks (sortpkg.sortByDueDate.less ascending) := rfl

theorem sortpkg.Sort_createdAt (slice : sort.SliceFunc) (tasks : List Task)
    (ascending : Bool) :
    sortpkg.Sort slice tasks sortpkg.SortByCreatedAt ascending =
      slice tasks (sortpkg.sortByCreatedAt.less ascending) := rfl

theorem sortpkg.Sort_priority (slice : sort.SliceFunc) (tasks : List Task) (ascending : Bool) :
    sortpkg.Sort slice tasks sortpkg.SortByPriority ascending =
      slice tasks (sortpkg.sortByPriority.less ascending) := rfl

/-- After a sort by due date no undated task precedes a dated one. -/
theorem sortpkg.dueDate_undated_last (slice : sort.SliceFunc)
    (hslice : sort.SliceContract slice) (tasks : List Task) (ascending : Bool) :
    (sortpkg.Sort slice tasks sortpkg.SortByDueDate ascending).Pairwise
      (fun a b => ¬ (a.DueDate = Time.zero ∧ b.DueDate ≠ Time.zero)) := by
  rw [sortpkg.Sort_dueDate]
  refine (hslice.2 tasks _ (sortpkg.sortByDueDate_less_strictWeak ascending)).imp ?_
  intro a b hba hab
  have hlt : sortpkg.sortByDueDate.less ascending b a = true := by
    rw [sortpkg.sortByDueDate_less_iff]
    exact ⟨fun h0 => hab.2 ((Time.eq_zero_iff b.DueDate).2 h0),
      Or.inl ((Time.eq_zero_iff a.DueDate).1 hab.1)⟩
  rw [hba] at hlt
  exact Bool.noConfusion hlt

/-- C16, the claim refuted.  The list of the single example task B has an
undated task present, and the descending result of `Sort` by DueDate is the
reverse of the ascending result: for every `sort.Slice` that only rearranges its
slice, and so for the insertion sort Go runs on a short slice. -/
theorem C16_only_undated_is_reverse :
    taskB.DueDate = Time.zero ∧
      (∀ slice : sort.SliceFunc, (∀ x less, (slice x less).Perm x) →
        sortpkg.Sort slice [taskB] sortpkg.SortByDueDate false =
          (sortpkg.Sort slice [taskB] sortpkg.SortByDueDate true).reverse) ∧
      (∀ longer : sort.SliceFunc,
        sortpkg.Sort (sort.pdqsortSlice longer) [taskB] sortpkg.SortByDueDate true =
          [taskB] ∧
        sortpkg.Sort (sort.pdqsortSlice longer) [taskB] sortpkg.SortByDueDate false =
          (sortpkg.Sort (sort.pdqsortSlice longer) [taskB]
            sortpkg.SortByDueDate true).reverse) := by
  refine ⟨by decide, ?_, fun _ => ⟨rfl, rfl⟩⟩
  intro slice hperm
  have hone : ∀ ascending, sortpkg.Sort slice [taskB] sortpkg.SortByDueDate ascending =
      [taskB] := fun ascending => by
    rw [sortpkg.Sort_dueDate]
    exact List.perm_singleton.1 (hperm [taskB] _)
  rw [hone false, hone true]
  rfl

/-- C16, amended. After `Sort` by DueDate, ascending or descending, no task
without a due date precedes a task with a due date.  So when the list has both
an undated and a dated task, the descending result is not the reverse of the
ascending result. -/
theorem C16_undated_sort_last (slice : sort.SliceFunc) (hslice : sort.SliceContract slice)
    (tasks : List Task) (ascending : Bool) :
    (sortpkg.Sort slice tasks sortpkg.SortByDueDate ascending).Pairwise
        (fun a b => ¬ (a.DueDate = Time.zero ∧ b.DueDate ≠ Time.zero)) ∧
      ((∃ a ∈ tasks, a.DueDate = Time.zero) → (∃ b ∈ tasks, b.DueDate ≠ Time.zero) →
        sortpkg.Sort slice tasks sortpkg.SortByDueDate false ≠
          (sortpkg.Sort slice tasks sortpkg.SortByDueDate true).reverse) := by
  refine ⟨sortpkg.dueDate_undated_last slice hslice tasks ascending, ?_⟩
  rintro ⟨a, ha, hazero⟩ ⟨b, hb, hbdated⟩ hrev
  have hasc := sortpkg.dueDate_undated_last slice hslice tasks true
  have hdesc := sortpkg.dueDate_undated_last slice hslice tasks false
  rw [hrev, List.pairwise_reverse] at hdesc
  have hboth := hasc.and hdesc
  have hperm : (sortpkg.Sort slice tasks sortpkg.SortByDueDate true).Perm tasks := by
    rw [sortpkg.Sort_dueDate]
    exact hslice.1 tasks _
  have hsymm : Symmetric (fun x y : Task =>
      ¬ (x.DueDate = Time.zero ∧ y.DueDate ≠ Time.zero) ∧
        ¬ (y.DueDate = Time.zero ∧ x.DueDate ≠ Time.zero)) := fun x y h => ⟨h.2, h.1⟩
  have hne : a ≠ b := fun hab => hbdated (hab ▸ hazero)
  exact (hboth.forall hsymm (hperm.mem_iff.2 ha) (hperm.mem_iff.2 hb) hne).1
    ⟨hazero, hbdated⟩

theorem C16_undated_sort_last_witness :
    sort.SliceContract sort.insertionSlice ∧
      sortpkg.Sort sort.insertionSlice [taskA, taskB, taskC] sortpkg.SortByDueDate true =
        [taskC, taskA, taskB] ∧
      sortpkg.Sort sort.insertionSlice [taskA, taskB, taskC] sortpkg.SortByDueDate false =
        [taskA, taskC, taskB] ∧
      sortpkg.Sort sort.insertionSlice [taskA, taskB, taskC] sortpkg.SortByDueDate false ≠
        (sortpkg.Sort sort.insertionSlice [taskA, taskB, taskC]
          sortpkg.SortByDueDate true).reverse :=
  ⟨sort.insertionSlice_contract, by decide, by decide,
    (C16_undated_sort_last sort.insertionSlice sort.insertionSlice_contract
      [taskA, taskB, taskC] true).2 ⟨taskB, by decide, by decide⟩
      ⟨taskA, by decide, by decide⟩⟩

/-- C17. `Sort` by DueDate ascending leaves the dated tasks in non-decreasing
order of due date, descending in non-increasing order; the example tasks given
as A, B, C come out ascending as C, A, B. -/
theorem C17_dated_chronological (slice : sort.SliceFunc) (hslice : sort.SliceContract slice)
    (tasks : List Task) :
    (sortpkg.Sort slice tasks sortpkg.SortByDueDate true).Pairwise
        (fun a b => a.DueDate ≠ Time.zero → b.DueDate ≠ Time.zero →
          a.DueDate.ns ≤ b.DueDate.ns) ∧
      (sortpkg.Sort slice tasks sortpkg.SortByDueDate false).Pairwise
        (fun a b => a.DueDate ≠ Time.zero → b.DueDate ≠ Time.zero →
          b.DueDate.ns ≤ a.DueDate.ns) ∧
      sortpkg.Sort slice [taskA, taskB, taskC] sortpkg.SortByDueDate true =
        [taskC, taskA, taskB] := by
  refine ⟨?_, ?_, ?_⟩
  · rw [sortpkg.Sort_dueDate]
    refine (hslice.2 tasks _ (sortpkg.sortByDueDate_less_strictWeak true)).imp ?_
    intro a b hba ha hb
    rw [← Bool.not_eq_true, sortpkg.sortByDueDate_less_iff] at hba
    have ha' : a.DueDate.ns ≠ 0 := fun h => ha ((Time.eq_zero_iff _).2 h)
    have hb' : b.DueDate.ns ≠ 0 := fun h => hb ((Time.eq_zero_iff _).2 h)
    by_contra hlt
    exact hba ⟨hb', Or.inr (Or.inl ⟨rfl, by omega⟩)⟩
  · rw [sortpkg.Sort_dueDate]
    refine (hslice.2 tasks _ (sortpkg.sortByDueDate_less_strictWeak false)).imp ?_
    intro a b hba ha hb
    rw [← Bool.not_eq_true, sortpkg.sortByDueDate_less_iff] at hba
    have ha' : a.DueDate.ns ≠ 0 := fun h => ha ((Time.eq_zero_iff _).2 h)
    have hb' : b.DueDate.ns ≠ 0 := fun h => hb ((Time.eq_zero_iff _).2 h)
    by_contra hlt
    exact hba ⟨hb', Or.inr (Or.inr ⟨rfl, by omega⟩)⟩
  · rw [sortpkg.Sort_dueDate]
    have hperm := hslice.1 [taskA, taskB, taskC] (sortpkg.sortByDueDate.less true)
    have hsorted := hslice.2 [taskA, taskB, taskC] _
      (sortpkg.sortByDueDate_less_strictWeak true)
    have hperm' : (slice [taskA, taskB, taskC] (sortpkg.sortByDueDate.less true)).Perm
        [taskC, taskA, taskB] := hperm.trans (by decide)
    refine List.Perm.eq_of_sorted ?_ hsorted (by decide) hperm'
    intro a b ha hb
    have ha' : a ∈ [taskA, taskB, taskC] := hperm.mem_iff.1 ha
    simp only [List.mem_cons, List.mem_singleton, List.not_mem_nil, or_false] at ha' hb
    rcases ha' with rfl | rfl | rfl <;> rcases hb with rfl | rfl | rfl <;> decide

theorem C17_dated_chronological_witness :
    sort.SliceContract sort.insertionSlice ∧
      sortpkg.Sort sort.insertionSlice [taskA, taskB, taskC] sortpkg.SortByDueDate true =
        [taskC, taskA, taskB] ∧
      sortpkg.Sort sort.adaptiveSlice [taskA, taskB, taskC] sortpkg.SortByDueDate true =
        [taskC, taskA, taskB] :=
  ⟨sort.insertionSlice_contract,
    (C17_dated_chronological sort.insertionSlice sort.insertionSlice_contract []).2.2,
    by decide⟩

/-- C18, the claim refuted.  `sort.adaptiveSlice` keeps the promises of
`sort.Slice`; in the thirteen sample tasks `"y1"` precedes `"y2"` and both have
the same CreatedAt, and after `Sort` by CreatedAt ascending `"y2"` precedes
`"y1"`. -/
theorem C18_equal_CreatedAt_reordered :
    sort.SliceContract sort.adaptiveSlice ∧
      createdAtSample.map Task.ID =
        ["e0", "y1", "y2", "e3", "e4", "e5", "e6", "e7", "e8", "e9", "e10", "e11", "e12"] ∧
      (createdAtSample.filter
          (fun t => decide (t.CreatedAt = Time.unix (1704067200 + 3600 * 20)))).map Task.ID =
        ["y1", "y2"] ∧
      (sortpkg.Sort sort.adaptiveSlice createdAtSample sortpkg.SortByCreatedAt true).map
          Task.ID =
        ["e11", "e12", "e0", "e3", "e4", "e5", "e6", "e7", "e8", "e9", "e10", "y2", "y1"] :=
  ⟨sort.adaptiveSlice_contract, by decide, by decide, by decide⟩

/-- On the thirteen sample tasks sorted by CreatedAt ascending, the first round
of Go's own sort returns what `sort.adaptiveSlice` returns. -/
theorem sort.pdqsortSlice_createdAtSample (longer : sort.SliceFunc) :
    sortpkg.Sort (sort.pdqsortSlice longer) createdAtSample sortpkg.SortByCreatedAt true =
      sortpkg.Sort sort.adaptiveSlice createdAtSample sortpkg.SortByCreatedAt true := by
  rfl

/-- C18, amended.  `Sort` by CreatedAt returns the same tasks in non-decreasing
order of CreatedAt when ascending and in non-increasing order when descending.
When no two tasks of the list share a CreatedAt this fixes the result, whatever
implementation of `sort.Slice` runs; the relative order of tasks with identical
CreatedAt is the one `sort.Slice` leaves. -/
theorem C18_CreatedAt_order_amended (slice : sort.SliceFunc)
    (hslice : sort.SliceContract slice) (tasks : List Task) (ascending : Bool) :
    (sortpkg.Sort slice tasks sortpkg.SortByCreatedAt ascending).Perm tasks ∧
      (sortpkg.Sort slice tasks sortpkg.SortByCreatedAt true).Pairwise
        (fun a b => a.CreatedAt.ns ≤ b.CreatedAt.ns) ∧
      (sortpkg.Sort slice tasks sortpkg.SortByCreatedAt false).Pairwise
        (fun a b => b.CreatedAt.ns ≤ a.CreatedAt.ns) ∧
      (∀ other : sort.SliceFunc, sort.SliceContract other →
        (∀ a ∈ tasks, ∀ b ∈ tasks, a.CreatedAt = b.CreatedAt → a = b) →
        sortpkg.Sort other tasks sortpkg.SortByCreatedAt ascending =
          sortpkg.Sort slice tasks sortpkg.SortByCreatedAt ascending) := by
  refine ⟨?_, ?_, ?_, ?_⟩
  · rw [sortpkg.Sort_createdAt]
    exact hslice.1 tasks _
  · rw [sortpkg.Sort_createdAt]
    refine (hslice.2 tasks _ (sortpkg.sortByCreatedAt_less_strictWeak true)).imp ?_
    intro a b hba
    simp only [sortpkg.sortByCreatedAt.less, if_true, Time.Before,
      decide_eq_false_iff_not] at hba
    omega
  · rw [sortpkg.Sort_createdAt]
    refine (hslice.2 tasks _ (sortpkg.sortByCreatedAt_less_strictWeak false)).imp ?_
    intro a b hba
    simp only [sortpkg.sortByCreatedAt.less, Bool.false_eq_true, if_false, Time.After,
      decide_eq_false_iff_not] at hba
    omega
  · intro other hother hinj
    rw [sortpkg.Sort_createdAt, sortpkg.Sort_createdAt]
    have hw := sortpkg.sortByCreatedAt_less_strictWeak ascending
    refine List.Perm.eq_of_sorted ?_ (hother.2 tasks _ hw) (hslice.2 tasks _ hw)
      ((hother.1 tasks _).trans (hslice.1 tasks _).symm)
    intro a b ha hb hab hba
    refine hinj a ((hother.1 tasks _).mem_iff.1 ha) b ((hslice.1 tasks _).mem_iff.1 hb) ?_
    have hns : a.CreatedAt.ns = b.CreatedAt.ns := by
      cases ascending <;>
        simp only [sortpkg.sortByCreatedAt.less, Bool.false_eq_true, if_true, if_false,
          Time.Before, Time.After, decide_eq_false_iff_not] at hab hba <;>
        omega
    cases hA : a.CreatedAt
    cases hB : b.CreatedAt
    rw [hA, hB] at hns
    exact congrArg Time.mk hns

theorem C18_CreatedAt_order_amended_witness :
    sort.SliceContract sort.adaptiveSlice ∧
      (sortpkg.Sort sort.adaptiveSlice createdAtSample sortpkg.SortByCreatedAt true).Perm
        createdAtSample ∧
      (sortpkg.Sort sort.adaptiveSlice createdAtSample sortpkg.SortByCreatedAt true).Pairwise
        (fun a b => a.CreatedAt.ns ≤ b.CreatedAt.ns) ∧
      sortpkg.Sort sort.insertionSlice [taskA, numberedTask "n1" PriorityLow 3]
          sortpkg.SortByCreatedAt false =
        sortpkg.Sort sort.adaptiveSlice [taskA, numberedTask "n1" PriorityLow 3]
          sortpkg.SortByCreatedAt false :=
  ⟨sort.adaptiveSlice_contract,
    (C18_CreatedAt_order_amended sort.adaptiveSlice sort.adaptiveSlice_contract
      createdAtSample true).1,
    (C18_CreatedAt_order_amended sort.adaptiveSlice sort.adaptiveSlice_contract
      createdAtSample true).2.1,
    (C18_CreatedAt_order_amended sort.adaptiveSlice sort.adaptiveSlice_contract
      [taskA, numberedTask "n1" PriorityLow 3] false).2.2.2 sort.insertionSlice
      sort.insertionSlice_contract (by decide)⟩

/-- C19, the claim refuted.  Go's `sort.Slice`, followed through its first
round on the thirteen sample tasks, leaves them as they are when sorting by
Priority ascending and returns hi, m6, m2, m3, m4, m5, m7, ..., m11, m1, lo when
sorting descending: the Medium tasks `"m1"` and `"m2"` come in this order in the
ascending result and in the opposite order in the descending result. -/
theorem C19_tie_order_differs :
    (numberedTask "m1" PriorityMedium 1).Priority =
        (numberedTask "m2" PriorityMedium 2).Priority ∧
      (∀ longer : sort.SliceFunc,
        (sortpkg.Sort (sort.pdqsortSlice longer) prioritySample sortpkg.SortByPriority
          true).map Task.ID =
          ["lo", "m1", "m2", "m3", "m4", "m5", "m6", "m7", "m8", "m9", "m10", "m11", "hi"]) ∧
      (∀ longer : sort.SliceFunc,
        (sortpkg.Sort (sort.pdqsortSlice longer) prioritySample sortpkg.SortByPriority
          false).map Task.ID =
          ["hi", "m6", "m2", "m3", "m4", "m5", "m7", "m8", "m9", "m10", "m11", "m1", "lo"]) ∧
      (∀ longer : sort.SliceFunc,
        ((sortpkg.Sort (sort.pdqsortSlice longer) prioritySample sortpkg.SortByPriority
          true).map Task.ID).filter (fun id => decide (id = "m1" ∨ id = "m2")) =
          ["m1", "m2"]) ∧
      (∀ longer : sort.SliceFunc,
        ((sortpkg.Sort (sort.pdqsortSlice longer) prioritySample sortpkg.SortByPriority
          false).map Task.ID).filter (fun id => decide (id = "m1" ∨ id = "m2")) =
          ["m2", "m1"]) ∧
      (sortpkg.Sort (sort.pdqsortSlice sort.insertionSlice) prioritySample
        sortpkg.SortByPriority false).Perm prioritySample ∧
      (sortpkg.Sort (sort.pdqsortSlice sort.insertionSlice) prioritySample
        sortpkg.SortByPriority false).Pairwise (fun a b => b.Priority ≤ a.Priority) :=
  ⟨rfl, fun _ => rfl, fun _ => rfl, fun _ => rfl, fun _ => rfl, by decide, by decide⟩

/-- C19, amended.  With Low < Medium < High as integers, `Sort` by Priority
returns the same tasks in non-decreasing order of priority when ascending and
in non-increasing order when descending; the direction only flips the
comparison (descending puts `a` before `b` exactly when ascending puts `b`
before `a`).  The relative order of tasks of equal priority is the one
`sort.Slice` leaves in each direction. -/
theorem C19_priority_order_amended (slice : sort.SliceFunc)
    (hslice : sort.SliceContract slice) (tasks : List Task) (ascending : Bool) :
    (PriorityLow < PriorityMedium ∧ PriorityMedium < PriorityHigh) ∧
      (sortpkg.Sort slice tasks sortpkg.SortByPriority ascending).Perm tasks ∧
      (sortpkg.Sort slice tasks sortpkg.SortByPriority true).Pairwise
        (fun a b => a.Priority ≤ b.Priority) ∧
      (sortpkg.Sort slice tasks sortpkg.SortByPriority false).Pairwise
        (fun a b => b.Priority ≤ a.Priority) ∧
      (∀ a b, sortpkg.sortByPriority.less false a b = sortpkg.sortByPriority.less true b a) := by
  refine ⟨by decide, ?_, ?_, ?_, ?_⟩
  · rw [sortpkg.Sort_priority]
    exact hslice.1 tasks _
  · rw [sortpkg.Sort_priority]
    refine (hslice.2 tasks _ (sortpkg.sortByPriority_less_strictWeak true)).imp ?_
    intro a b hba
    simp only [sortpkg.sortByPriority.less, if_true, decide_eq_false_iff_not] at hba
    exact not_lt.1 hba
  · rw [sortpkg.Sort_priority]
    refine (hslice.2 tasks _ (sortpkg.sortByPriority_less_strictWeak false)).imp ?_
    intro a b hba
    simp only [sortpkg.sortByPriority.less, Bool.false_eq_true, if_false,
      decide_eq_false_iff_not, gt_iff_lt] at hba
    exact not_lt.1 hba
  · intro a b
    simp [sortpkg.sortByPriority.less]

theorem C19_priority_order_amended_witness :
    sort.SliceContract sort.insertionSlice ∧
      (sortpkg.Sort sort.insertionSlice [taskA, taskB, taskC]
        sortpkg.SortByPriority true) = [taskA, taskC, taskB] ∧
      (sortpkg.Sort sort.insertionSlice [taskA, taskB, taskC]
        sortpkg.SortByPriority false) = [taskB, taskC, taskA] ∧
      (sortpkg.Sort sort.insertionSlice [taskA, taskB, taskC]
        sortpkg.SortByPriority true).Pairwise (fun a b => a.Priority ≤ b.Priority) :=
  ⟨sort.insertionSlice_contract, by decide, by decide,
    (C19_priority_order_amended sort.insertionSlice sort.insertionSlice_contract
      [taskA, taskB, taskC] true).2.2.1⟩

theorem sortpkg.Sort_perm (slice : sort.SliceFunc)
    (hperm : ∀ x less, (slice x less).Perm x) (tasks : List Task) (sortBy : sortpkg.SortBy)
    (ascending : Bool) : (sortpkg.Sort slice tasks sortBy ascending).Perm tasks := by
  unfold sortpkg.Sort
  split_ifs
  · exact hperm tasks _
  · exact hperm tasks _
  · exact hperm tasks _
  · exact hperm tasks _
  · exact List.Perm.refl tasks

theorem sortpkg.Sort_unknown_key (slice : sort.SliceFunc) (tasks : List Task)
    (sortBy : sortpkg.SortBy) (ascending : Bool) (h0 : sortBy ≠ sortpkg.SortByPriority)
    (h1 : sortBy ≠ sortpkg.SortByDueDate) (h2 : sortBy ≠ sortpkg.SortByCreatedAt)
    (h3 : sortBy ≠ sortpkg.SortByTitle) : sortpkg.Sort slice tasks sortBy ascending = tasks := by
  unfold sortpkg.Sort
  rw [if_neg h0, if_neg h1, if_neg h2, if_neg h3]

/-- C21. `Sort` only reorders.  Whenever `sort.Slice` rearranges the slice it is
given (the first promise of its contract), the result of `Sort` is, for every
key and either direction, a permutation of the input: the same tasks with the
same multiplicities, hence the same length and the same members.  For a key
other than Priority, DueDate, CreatedAt and Title, `Sort` returns the sequence
as it was, whatever `sort.Slice` does. -/
theorem C21_Sort_only_reorders (slice : sort.SliceFunc)
    (hperm : ∀ x less, (slice x less).Perm x) (tasks : List Task) (sortBy : sortpkg.SortBy)
    (ascending : Bool) :
    (sortpkg.Sort slice tasks sortBy ascending).Perm tasks ∧
      (∀ task, (sortpkg.Sort slice tasks sortBy ascending).count task = tasks.count task) ∧
      (sortpkg.Sort slice tasks sortBy ascending).length = tasks.length ∧
      (∀ task, task ∈ sortpkg.Sort slice tasks sortBy ascending ↔ task ∈ tasks) ∧
      (∀ (other : sort.SliceFunc) (key : sortpkg.SortBy), key ≠ sortpkg.SortByPriority →
        key ≠ sortpkg.SortByDueDate → key ≠ sortpkg.SortByCreatedAt →
        key ≠ sortpkg.SortByTitle → sortpkg.Sort other tasks key ascending = tasks) := by
  have h := sortpkg.Sort_perm slice hperm tasks sortBy ascending
  exact ⟨h, fun task => h.count_eq task, h.length_eq, fun task => h.mem_iff,
    fun other key h0 h1 h2 h3 => sortpkg.Sort_unknown_key other tasks key ascending h0 h1 h2 h3⟩

theorem C21_Sort_only_reorders_witness :
    (∀ x less, (sort.adaptiveSlice x less).Perm x) ∧
      (sortpkg.Sort sort.adaptiveSlice [taskB, taskA, taskC, taskB] sortpkg.SortByPriority
        true) = [taskA, taskC, taskB, taskB] ∧
      (sortpkg.Sort sort.adaptiveSlice [taskB, taskA, taskC, taskB] sortpkg.SortByPriority
        true).Perm [taskB, taskA, taskC, taskB] ∧
      (sortpkg.Sort sort.adaptiveSlice [taskB, taskA, taskC, taskB] sortpkg.SortByTitle
        false).Perm [taskB, taskA, taskC, taskB] ∧
      (sortpkg.Sort sort.adaptiveSlice [taskB, taskA, taskC, taskB] sortpkg.SortByTitle
        false).length = [taskB, taskA, taskC, taskB].length ∧
      sortpkg.Sort sort.adaptiveSlice [taskB, taskA, taskC, taskB] 7 true =
        [taskB, taskA, taskC, taskB] :=
  ⟨sort.adaptiveSlice_contract.1, by decide,
    (C21_Sort_only_reorders sort.adaptiveSlice sort.adaptiveSlice_contract.1
      [taskB, taskA, taskC, taskB] sortpkg.SortByPriority true).1,
    (C21_Sort_only_reorders sort.adaptiveSlice sort.adaptiveSlice_contract.1
      [taskB, taskA, taskC, taskB] sortpkg.SortByTitle false).1,
    (C21_Sort_only_reorders sort.adaptiveSlice sort.adaptiveSlice_contract.1
      [taskB, taskA, taskC, taskB] sortpkg.SortByTitle false).2.2.1,
    (C21_Sort_only_reorders sort.adaptiveSlice sort.adaptiveSlice_contract.1
      [taskB, taskA, taskC, taskB] sortpkg.SortByTitle true).2.2.2.2 sort.adaptiveSlice 7
      (by decide) (by decide) (by decide) (by decide)⟩

end TodoCli
